import Mathlib

/-!
# Verification of the collectd binary network protocol (go-collectd)

A shallow embedding of the Go sources of `collectd/go-collectd`:

* the data model of `api` (`Value`, `Identifier`, `ValueList`, cdtime
  conversions from `api/main.go` and the `cdtime` package),
* the state-compressing encoder `Buffer` of `network/buffer.go`,
* the parser `Parse` / `parseValues` / `parseInt` / `parseString`,
* the identifier parser `ParseIdentifier` and `Identifier.String`,
* the cryptographic envelope (`signSHA256`, `verifySHA256`,
  `encryptAES256`, `decryptAES256` of `network/crypto.go`), together with
  executable models of the library primitives they call
  (SHA-256, SHA-1, HMAC, AES-256, OFB keystream).

Go byte slices and strings on the wire are modelled as `List Nat`
(every produced byte is `< 256` by construction); Go `uint64`/`int64`
arithmetic is modelled on `Nat`/`Int` with explicit `% 2^64` wrapping
where the Go code can overflow.  Functions that can `panic` in Go return
a dedicated `panicked` outcome.
-/

set_option maxRecDepth 40000

/-! ## Bytes: big-endian / little-endian encodings used by encoding/binary -/

/-- `binary.BigEndian.PutUint16`: the two big-endian bytes of `x mod 2^16`. -/
def be16 (x : Nat) : List Nat := [x % 65536 / 256, x % 256]

/-- `binary.BigEndian.PutUint64`: the eight big-endian bytes of `x mod 2^64`. -/
def be64 (x : Nat) : List Nat :=
  [x / 2 ^ 56 % 256, x / 2 ^ 48 % 256, x / 2 ^ 40 % 256, x / 2 ^ 32 % 256,
   x / 2 ^ 24 % 256, x / 2 ^ 16 % 256, x / 2 ^ 8 % 256, x % 256]

/-- `binary.LittleEndian.PutUint64`: the eight little-endian bytes of `x mod 2^64`. -/
def le64 (x : Nat) : List Nat :=
  [x % 256, x / 2 ^ 8 % 256, x / 2 ^ 16 % 256, x / 2 ^ 24 % 256,
   x / 2 ^ 32 % 256, x / 2 ^ 40 % 256, x / 2 ^ 48 % 256, x / 2 ^ 56 % 256]

/-- Big-endian read of a byte list (`binary.BigEndian.Uint16/Uint64`). -/
def beToNat (l : List Nat) : Nat := l.foldl (fun a b => a * 256 + b) 0

/-- Little-endian read of a byte list (`binary.LittleEndian.Uint64`). -/
def leToNat (l : List Nat) : Nat := beToNat l.reverse

/-- Go conversion `uint64(x)` of an `int64` value: wrap into `[0, 2^64)`. -/
def intToUint64 (v : Int) : Nat := (v % (2 ^ 64 : Int)).toNat

/-- Go conversion `int64(n)` of a `uint64` value: two's complement reading. -/
def uint64ToInt64 (n : Nat) : Int := if n < 2 ^ 63 then (n : Int) else (n : Int) - 2 ^ 64

/-- Wrapping of a mathematical integer into `int64` (Go overflow semantics). -/
def wrapInt64 (x : Int) : Int := (x + 2 ^ 63) % 2 ^ 64 - 2 ^ 63

/-- All entries of a list are bytes. -/
def BytesOk (l : List Nat) : Prop := ∀ x ∈ l, x < 256

instance : DecidablePred BytesOk := fun l => List.decidableBAll _ l

theorem beToNat_be16 (x : Nat) (h : x < 65536) : beToNat (be16 x) = x := by
  simp only [be16, beToNat, List.foldl]
  omega

theorem beToNat_be64 (x : Nat) (h : x < 2 ^ 64) : beToNat (be64 x) = x := by
  simp only [be64, beToNat, List.foldl]
  omega

theorem leToNat_le64 (x : Nat) (h : x < 2 ^ 64) : leToNat (le64 x) = x := by
  simp only [le64, leToNat, beToNat, List.reverse, List.reverseAux, List.foldl]
  omega

theorem be16_len (x : Nat) : (be16 x).length = 2 := rfl

theorem be64_len (x : Nat) : (be64 x).length = 8 := rfl

theorem le64_len (x : Nat) : (le64 x).length = 8 := rfl

theorem bytesOk_be16 (x : Nat) : BytesOk (be16 x) := by
  simp only [be16, BytesOk, List.mem_cons, List.not_mem_nil, or_false]
  rintro b (rfl | rfl) <;> omega

theorem bytesOk_be64 (x : Nat) : BytesOk (be64 x) := by
  simp only [be64, BytesOk, List.mem_cons, List.not_mem_nil, or_false]
  rintro b (rfl | rfl | rfl | rfl | rfl | rfl | rfl | rfl) <;> omega

theorem bytesOk_le64 (x : Nat) : BytesOk (le64 x) := by
  simp only [le64, BytesOk, List.mem_cons, List.not_mem_nil, or_false]
  rintro b (rfl | rfl | rfl | rfl | rfl | rfl | rfl | rfl) <;> omega

theorem bytesOk_append {a b : List Nat} (ha : BytesOk a) (hb : BytesOk b) :
    BytesOk (a ++ b) := by
  intro x hx
  rcases List.mem_append.mp hx with h | h
  · exact ha x h
  · exact hb x h

/-! ## Data model (`api/main.go`) -/

/-- `api.Value`: Go interface holding `Gauge` (a float64, modelled by its
IEEE-754 bit pattern), `Derive` (an int64) or `Counter` (a uint64; present in
the repository's `api` package, unsupported by the network encoder). -/
inductive Value where
  | gauge (bits : Nat)
  | derive (v : Int)
  | counter (v : Nat)
deriving DecidableEq, Repr

/-- `math.IsNaN` on the bit pattern of a float64: exponent all ones and
non-zero mantissa. -/
def isNaN64 (bits : Nat) : Bool :=
  decide (bits / 2 ^ 52 % 2 ^ 11 = 2047 ∧ bits % 2 ^ 52 ≠ 0)

/-- `api.Identifier`: five Go strings, modelled as byte lists. -/
structure Identifier where
  host : List Nat
  plugin : List Nat
  pluginInstance : List Nat
  type_ : List Nat
  typeInstance : List Nat
deriving DecidableEq, Repr

/-- `time.Time`, restricted to the operations the codec uses: the zero value
`time.Time{}` (distinguished by Go's `==` from every `time.Unix` value) and
instants carrying their mathematical Unix-nanosecond value. -/
structure GoTime where
  isZero : Bool
  nano : Int
deriving DecidableEq, Repr

/-- `time.Unix(s, ns)` as used by the parser (`0 ≤ ns < 1e9` there). -/
def mkUnix (s ns : Int) : GoTime := ⟨false, s * 1000000000 + ns⟩

/-- The zero `time.Time{}`: its Unix time is `-62135596800` seconds. -/
def zeroGoTime : GoTime := ⟨true, -62135596800 * 1000000000⟩

/-- `time.Duration`: int64 nanoseconds. -/
abbrev GoDuration := Int

/-- `api.ValueList`. -/
structure ValueList where
  id : Identifier
  time : GoTime
  interval : GoDuration
  values : List Value
deriving DecidableEq, Repr

/-- The zero `api.ValueList{}` (encoder shadow state, parser state). -/
def zeroValueList : ValueList :=
  { id := ⟨[], [], [], [], []⟩, time := zeroGoTime, interval := 0, values := [] }

/-! ## cdtime (`api/main.go` encode, package `cdtime` decode) -/

/-- `api.cdtimeNano` (and `cdtime.newNano`): nanoseconds (as uint64) to
cdtime, splitting into seconds and sub-second to control the shift;
`s << 30` still wraps modulo 2^64 for huge inputs, as in Go. -/
def cdtimeNano (ns : Nat) : Nat :=
  ((ns / 1000000000) <<< 30) % 2 ^ 64 ||| ((ns % 1000000000) <<< 30) / 1000000000

/-- `api.Cdtime`: `cdtimeNano(uint64(t.UnixNano()))`. -/
def Cdtime (t : GoTime) : Nat := cdtimeNano (intToUint64 t.nano)

/-- `api.CdtimeDuration`: `cdtimeNano(uint64(d.Nanoseconds()))`. -/
def CdtimeDuration (d : GoDuration) : Nat := cdtimeNano (intToUint64 d)

/-- `cdtime.Time.Time()`: seconds `t >> 30`, nanoseconds
`(t & 0x3fffffff) * 1e9 >> 30`, via `time.Unix`. -/
def cdtimeToTime (i : Nat) : GoTime :=
  mkUnix (i >>> 30 : Nat) (((i % 2 ^ 30) * 1000000000) >>> 30 : Nat)

/-- `cdtime.Time.Duration()`: `time.Duration(1e9*s + ns)` with int64 wrap. -/
def cdtimeToDuration (i : Nat) : GoDuration :=
  wrapInt64 (1000000000 * ((i >>> 30 : Nat) : Int) +
    ((((i % 2 ^ 30) * 1000000000) >>> 30 : Nat) : Int))

/-! ## Part type constants (`network/buffer.go`) -/

def typeHost : Nat := 0x0000
def typeTime : Nat := 0x0001
def typeTimeHR : Nat := 0x0008
def typePlugin : Nat := 0x0002
def typePluginInstance : Nat := 0x0003
def typeType : Nat := 0x0004
def typeTypeInstance : Nat := 0x0005
def typeValues : Nat := 0x0006
def typeInterval : Nat := 0x0007
def typeIntervalHR : Nat := 0x0009
def typeSignSHA256 : Nat := 0x0200
def typeEncryptAES256 : Nat := 0x0210

def dsTypeGauge : Nat := 1
def dsTypeDerive : Nat := 2
/-- Modelled from the spec: `dsTypeCounter` is referenced by the parser but its
defining constant file is not among the sources; §4.2 of the spec fixes the
type tags as `1 = Gauge, 2 = Derive, 0 = Counter, 3 = Absolute`. -/
def dsTypeCounter : Nat := 0
/-- Modelled from the spec, like `dsTypeCounter`. -/
def dsTypeAbsolute : Nat := 3

def DefaultBufferSize : Nat := 1452

/-! ## Parser (`Parse`, `parseValues`, `parseInt`, `parseString`) -/

/-- Parse errors; the Go error values are collapsed to their kind. -/
inductive PErr where
  | invalidLength
  | invalid
  | unsupported
  | invalidDataSource
  | ioEOF
  | outOfFuel
deriving DecidableEq, Repr

/-- Outcome of `Parse`: a Go `([]api.ValueList, error)` return, or a panic. -/
inductive ParseOut where
  | res (vls : List ValueList) (err : Option PErr)
  | panicked
deriving DecidableEq, Repr

/-- `parseString`: the payload must end in a NUL byte, which is stripped. -/
def parseString (b : List Nat) : Except PErr (List Nat) :=
  if b.getLast? = some 0 then .ok (b.dropLast) else .error .invalid

/-- `parseInt`: exactly eight bytes, big-endian uint64. -/
def parseInt (b : List Nat) : Except PErr Nat :=
  if b.length = 8 then .ok (beToNat b) else .error .invalid

/-- The per-tag decoding loop of `parseValues`: each value consumes eight
bytes from the cell buffer; tag 1 is a little-endian float64 (`Gauge`), tags
0 and 2 are a big-endian int64 (`Derive`), tag 3 (`Absolute`) is rejected as
unsupported, anything else is an invalid data source. -/
def parseValuesLoop : List Nat → List Nat → Except PErr (List Value)
  | [], _ => .ok []
  | t :: ts, buf =>
    if t = dsTypeGauge then
      if buf.length < 8 then .error .ioEOF
      else do
        let rest ← parseValuesLoop ts (buf.drop 8)
        .ok (Value.gauge (leToNat (buf.take 8)) :: rest)
    else if t = dsTypeDerive ∨ t = dsTypeCounter then
      if buf.length < 8 then .error .ioEOF
      else do
        let rest ← parseValuesLoop ts (buf.drop 8)
        .ok (Value.derive (uint64ToInt64 (beToNat (buf.take 8))) :: rest)
    else if t = dsTypeAbsolute then .error .unsupported
    else .error .invalidDataSource

/-- `parseValues`: a two-byte big-endian count `n`, the check
`int(n*9) == buffer.Len()` (`n*9` computed in uint16 arithmetic, hence the
`% 65536`), a `bytes.Buffer.Read` into an `n`-byte type slice (which
zero-fills when fewer than `n` bytes remain and only errors on an empty
buffer), then the decoding loop. -/
def parseValues (b : List Nat) : Except PErr (List Value) :=
  if b.length < 2 then .error .ioEOF
  else
    let n := beToNat (b.take 2)
    let body := b.drop 2
    if (n * 9) % 65536 ≠ body.length then .error .invalid
    else if body.length = 0 ∧ 0 < n then .error .ioEOF
    else
      let types := body.take n ++ List.replicate (n - min n body.length) 0
      parseValuesLoop types (body.drop n)

/-- One `ValueList` field update for a string part. -/
def setStringField (st : ValueList) (partType : Nat) (s : List Nat) : ValueList :=
  if partType = typeHost then { st with id := { st.id with host := s } }
  else if partType = typePlugin then { st with id := { st.id with plugin := s } }
  else if partType = typePluginInstance then
    { st with id := { st.id with pluginInstance := s } }
  else if partType = typeType then { st with id := { st.id with type_ := s } }
  else { st with id := { st.id with typeInstance := s } }

/-- One `ValueList` field update for an integer part. -/
def setIntField (st : ValueList) (partType : Nat) (i : Nat) : ValueList :=
  if partType = typeInterval then
    { st with interval := wrapInt64 (uint64ToInt64 i * 1000000000) }
  else if partType = typeIntervalHR then { st with interval := cdtimeToDuration i }
  else if partType = typeTime then { st with time := ⟨false, uint64ToInt64 i * 1000000000⟩ }
  else { st with time := cdtimeToTime i }

/-- The part-walking loop of `Parse`.  The `fuel` argument makes the
recursion structural; `Parse` supplies `fuel = b.length`, which always
suffices because every iteration consumes at least five bytes (the
`outOfFuel` branch is unreachable from `Parse`).  A loop iteration with
fewer than four bytes left evaluates `binary.BigEndian.Uint16` on a short
slice and panics, exactly as the Go code does. -/
def parseGo : Nat → List Nat → ValueList → List ValueList → ParseOut
  | _, [], _, acc => .res acc none
  | 0, _ :: _, _, acc => .res acc (some .outOfFuel)
  | fuel + 1, b0 :: brest, st, acc =>
    let b := b0 :: brest
    if b.length < 4 then .panicked
    else
      let partType := beToNat (b.take 2)
      let partLength := beToNat ((b.drop 2).take 2)
      let rest := b.drop 4
      if partLength < 5 ∨ rest.length < partLength - 4 then
        .res acc (some .invalidLength)
      else
        let payload := rest.take (partLength - 4)
        let remaining := rest.drop (partLength - 4)
        if partType = typeHost ∨ partType = typePlugin ∨
            partType = typePluginInstance ∨ partType = typeType ∨
            partType = typeTypeInstance then
          match parseString payload with
          | .error e => .res acc (some e)
          | .ok s => parseGo fuel remaining (setStringField st partType s) acc
        else if partType = typeInterval ∨ partType = typeIntervalHR ∨
            partType = typeTime ∨ partType = typeTimeHR then
          match parseInt payload with
          | .error e => .res acc (some e)
          | .ok i => parseGo fuel remaining (setIntField st partType i) acc
        else if partType = typeValues then
          match parseValues payload with
          | .error e => .res acc (some e)
          | .ok vs => parseGo fuel remaining st (acc ++ [{ st with values := vs }])
        else parseGo fuel remaining st acc

/-- `network.Parse` (the one-argument version of the sources). -/
def Parse (b : List Nat) : ParseOut := parseGo b.length b zeroValueList []

/-! ## The state-compressing encoder (`network/buffer.go`) -/

/-- The only error the append routines produce: `errNotEnoughSpace`. -/
inductive WErr where
  | notEnoughSpace
deriving DecidableEq, Repr

/-- `network.Buffer`: accumulated bytes, shadow `api.ValueList` state, MTU
budget, credentials, mode, and the `io.Writer` modelled as the list of
datagrams written so far. -/
structure Buffer where
  buffer : List Nat
  state : ValueList
  size : Int
  username : List Nat
  password : List Nat
  encrypt : Bool
  output : List (List Nat)
deriving Repr

/-- Outcome of a write routine: success, Go error return, or panic.  All
three carry the buffer, whose mutations up to that point persist (the Go
methods mutate through a pointer). -/
inductive WRes where
  | ok (b : Buffer)
  | err (e : WErr) (b : Buffer)
  | panicked (b : Buffer)
deriving Repr

/-- `NewBuffer`. -/
def NewBuffer : Buffer :=
  { buffer := [], state := zeroValueList, size := (DefaultBufferSize : Int),
    username := [], password := [], encrypt := false, output := [] }

/-- `NewBufferSigned`: the budget shrinks by the signature overhead
`36 + len(username)`. -/
def NewBufferSigned (username password : List Nat) : Buffer :=
  { buffer := [], state := zeroValueList,
    size := (DefaultBufferSize : Int) - (36 + username.length),
    username := username, password := password, encrypt := false, output := [] }

/-- `NewBufferEncrypted`: the budget shrinks by the encryption overhead
`42 + len(username)`. -/
def NewBufferEncrypted (username password : List Nat) : Buffer :=
  { buffer := [], state := zeroValueList,
    size := (DefaultBufferSize : Int) - (42 + username.length),
    username := username, password := password, encrypt := true, output := [] }

/-- `Buffer.Free`. -/
def free (b : Buffer) : Int :=
  if b.size < (b.buffer.length : Int) then 0 else b.size - b.buffer.length

/-- `Buffer.writeString`: a string part is `type ‖ size ‖ s ‖ NUL` with
`size = 4 + len(s) + 1`, appended only if it fits. -/
def writeString (b : Buffer) (typ : Nat) (s : List Nat) : WRes :=
  let size := 4 + s.length + 1
  if (size : Int) > free b then .err .notEnoughSpace b
  else .ok { b with buffer := b.buffer ++ be16 typ ++ be16 size ++ s ++ [0] }

/-- `Buffer.writeInt`: an integer part is `type ‖ 12 ‖ uint64`, 12 bytes. -/
def writeInt (b : Buffer) (typ : Nat) (n : Nat) : WRes :=
  if (12 : Int) > free b then .err .notEnoughSpace b
  else .ok { b with buffer := b.buffer ++ be16 typ ++ be16 12 ++ be64 n }

/-- The special on-wire NaN: `00 00 00 00 00 00 F8 7F`. -/
def nanBytes : List Nat := [0, 0, 0, 0, 0, 0, 0xf8, 0x7f]

/-- The type-tag loop of `Buffer.writeValues`: `Gauge` and `Derive` emit
their tag, any other variant (e.g. `Counter`) hits
`panic("unexpected type")`; the `.error` case carries the buffer as written
up to the panic (the tags appended before the bad value remain). -/
def writeValuesTags (buf : List Nat) : List Value → Except (List Nat) (List Nat)
  | [] => .ok buf
  | .gauge _ :: vs => writeValuesTags (buf ++ [dsTypeGauge]) vs
  | .derive _ :: vs => writeValuesTags (buf ++ [dsTypeDerive]) vs
  | .counter _ :: _ => .error buf

/-- The value-cell loop of `Buffer.writeValues`: gauges are little-endian
float64 bits with NaN normalized to `nanBytes`, derives big-endian int64;
other variants panic (unreachable: the tag loop panicked first). -/
def writeValuesCells (buf : List Nat) : List Value → Except (List Nat) (List Nat)
  | [] => .ok buf
  | .gauge bits :: vs =>
    writeValuesCells (buf ++ if isNaN64 bits then nanBytes else le64 bits) vs
  | .derive v :: vs => writeValuesCells (buf ++ be64 (intToUint64 v)) vs
  | .counter _ :: _ => .error buf

/-- `Buffer.writeValues`: size check first (`6 + 9·n`), then the part header
`type ‖ size ‖ count`, the tag loop and the cell loop. -/
def writeValues (b : Buffer) (values : List Value) : WRes :=
  let size := 6 + 9 * values.length
  if (size : Int) > free b then .err .notEnoughSpace b
  else
    let buf0 := b.buffer ++ be16 typeValues ++ be16 size ++ be16 values.length
    match writeValuesTags buf0 values with
    | .error bufP => .panicked { b with buffer := bufP }
    | .ok buf1 =>
      match writeValuesCells buf1 values with
      | .error bufP => .panicked { b with buffer := bufP }
      | .ok buf2 => .ok { b with buffer := buf2 }

/-- Sequencing of the write routines: an error or panic return propagates
(the Go methods return early). -/
def wbind (r : WRes) (f : Buffer → WRes) : WRes :=
  match r with
  | .ok b => f b
  | .err e b => .err e b
  | .panicked b => .panicked b

/-- One `if id.X != b.state.X { writeString; b.state.X = id.X }` block of
`Buffer.writeIdentifier`, generic in the field accessed. -/
def idStep (typ : Nat) (get : Identifier → List Nat)
    (set : Identifier → List Nat → Identifier) (id : Identifier) (b : Buffer) : WRes :=
  if get id = get b.state.id then .ok b
  else
    wbind (writeString b typ (get id)) fun b1 =>
      .ok { b1 with state := { b1.state with id := set b1.state.id (get id) } }

/-- `Buffer.writeIdentifier`: each of the five fields is written only when
it differs from the shadow state, which is updated after each success. -/
def writeIdentifier (b : Buffer) (id : Identifier) : WRes :=
  wbind (idStep typeHost Identifier.host (fun i s => { i with host := s }) id b) fun b1 =>
  wbind (idStep typePlugin Identifier.plugin (fun i s => { i with plugin := s }) id b1) fun b2 =>
  wbind (idStep typePluginInstance Identifier.pluginInstance
      (fun i s => { i with pluginInstance := s }) id b2) fun b3 =>
  wbind (idStep typeType Identifier.type_ (fun i s => { i with type_ := s }) id b3) fun b4 =>
  idStep typeTypeInstance Identifier.typeInstance
    (fun i s => { i with typeInstance := s }) id b4

/-- `Buffer.writeTime`: skip when equal to the shadow time; otherwise the
shadow is updated *before* the append is attempted, as in the Go code. -/
def writeTime (b : Buffer) (t : GoTime) : WRes :=
  if b.state.time = t then .ok b
  else writeInt { b with state := { b.state with time := t } } typeTimeHR (Cdtime t)

/-- `Buffer.writeInterval`: like `writeTime`, with `IntervalHR`. -/
def writeInterval (b : Buffer) (d : GoDuration) : WRes :=
  if b.state.interval = d then .ok b
  else writeInt { b with state := { b.state with interval := d } }
    typeIntervalHR (CdtimeDuration d)

/-- `Buffer.writeValueList`: identifier, time, interval, values. -/
def writeValueList (b : Buffer) (vl : ValueList) : WRes :=
  wbind (writeIdentifier b vl.id) fun b1 =>
  wbind (writeTime b1 vl.time) fun b2 =>
  wbind (writeInterval b2 vl.interval) fun b3 =>
  writeValues b3 vl.values

/-! ## Cryptographic primitives

The Go code calls `crypto/sha256`, `crypto/sha1`, `crypto/hmac`,
`crypto/aes` and `crypto/cipher` from the standard library, which is not
part of this repository; the primitives are implemented here executably,
following FIPS 180-4 (SHA), RFC 2104 (HMAC) and FIPS 197 (AES), and are
validated below against published test vectors and against the
spec's concrete signing scenario. -/

/-- 32-bit modular addition. -/
def add32 (x y : Nat) : Nat := (x + y) % 2 ^ 32

/-- 32-bit right rotation (inputs below `2^32`). -/
def rotr32 (n x : Nat) : Nat := ((x >>> n) ||| (x <<< (32 - n))) % 2 ^ 32

/-- 32-bit left rotation (inputs below `2^32`). -/
def rotl32 (n x : Nat) : Nat := ((x <<< n) % 2 ^ 32) ||| (x >>> (32 - n))

/-- The four big-endian bytes of a 32-bit word. -/
def be32 (x : Nat) : List Nat :=
  [x / 2 ^ 24 % 256, x / 2 ^ 16 % 256, x / 2 ^ 8 % 256, x % 256]

/-- Merkle–Damgård padding shared by SHA-256 and SHA-1: append `0x80`,
zero-pad to 56 mod 64, then the bit length as a big-endian uint64. -/
def shaPad (m : List Nat) : List Nat :=
  m ++ [0x80] ++ List.replicate ((64 - (m.length + 9) % 64) % 64) 0 ++ be64 (8 * m.length)

/-- The 64 SHA-256 round constants. -/
def sha256K : List Nat :=
  [1116352408, 1899447441, 3049323471, 3921009573, 961987163, 1508970993,
   2453635748, 2870763221, 3624381080, 310598401, 607225278, 1426881987,
   1925078388, 2162078206, 2614888103, 3248222580, 3835390401, 4022224774,
   264347078, 604807628, 770255983, 1249150122, 1555081692, 1996064986,
   2554220882, 2821834349, 2952996808, 3210313671, 3336571891, 3584528711,
   113926993, 338241895, 666307205, 773529912, 1294757372, 1396182291,
   1695183700, 1986661051, 2177026350, 2456956037, 2730485921, 2820302411,
   3259730800, 3345764771, 3516065817, 3600352804, 4094571909, 275423344,
   430227734, 506948616, 659060556, 883997877, 958139571, 1322822218,
   1537002063, 1747873779, 1955562222, 2024104815, 2227730452, 2361852424,
   2428436474, 2756734187, 3204031479, 3329325298]

/-- SHA-256 chain state. -/
structure Sha256St where
  a : Nat
  b : Nat
  c : Nat
  d : Nat
  e : Nat
  f : Nat
  g : Nat
  h : Nat

/-- Message schedule of one 64-byte chunk: 16 big-endian words extended
to 64. -/
def sha256Schedule (chunk : List Nat) : List Nat :=
  let w16 := (List.range 16).map (fun i => beToNat ((chunk.drop (4 * i)).take 4))
  (List.range 48).foldl
    (fun w _ =>
      let i := w.length
      let w15 := w.getD (i - 15) 0
      let w2 := w.getD (i - 2) 0
      let s0 := rotr32 7 w15 ^^^ rotr32 18 w15 ^^^ (w15 >>> 3)
      let s1 := rotr32 17 w2 ^^^ rotr32 19 w2 ^^^ (w2 >>> 10)
      w ++ [(w.getD (i - 16) 0 + s0 + w.getD (i - 7) 0 + s1) % 2 ^ 32])
    w16

/-- One SHA-256 compression round. -/
def sha256Round (w : List Nat) (st : Sha256St) (i : Nat) : Sha256St :=
  let s1 := rotr32 6 st.e ^^^ rotr32 11 st.e ^^^ rotr32 25 st.e
  let ch := (st.e &&& st.f) ^^^ ((st.e ^^^ (2 ^ 32 - 1)) &&& st.g)
  let t1 := (st.h + s1 + ch + sha256K.getD i 0 + w.getD i 0) % 2 ^ 32
  let s0 := rotr32 2 st.a ^^^ rotr32 13 st.a ^^^ rotr32 22 st.a
  let mj := (st.a &&& st.b) ^^^ (st.a &&& st.c) ^^^ (st.b &&& st.c)
  let t2 := (s0 + mj) % 2 ^ 32
  ⟨add32 t1 t2, st.a, st.b, st.c, add32 st.d t1, st.e, st.f, st.g⟩

/-- Compression of one chunk into the chain state. -/
def sha256Compress (st : Sha256St) (chunk : List Nat) : Sha256St :=
  let w := sha256Schedule chunk
  let r := (List.range 64).foldl (sha256Round w) st
  ⟨add32 st.a r.a, add32 st.b r.b, add32 st.c r.c, add32 st.d r.d,
   add32 st.e r.e, add32 st.f r.f, add32 st.g r.g, add32 st.h r.h⟩

/-- SHA-256 of a byte list. -/
def sha256 (m : List Nat) : List Nat :=
  let p := shaPad m
  let st := (List.range (p.length / 64)).foldl
    (fun st i => sha256Compress st ((p.drop (64 * i)).take 64))
    ⟨1779033703, 3144134277, 1013904242, 2773480762,
     1359893119, 2600822924, 528734635, 1541459225⟩
  be32 st.a ++ be32 st.b ++ be32 st.c ++ be32 st.d ++
    be32 st.e ++ be32 st.f ++ be32 st.g ++ be32 st.h

/-- SHA-1 chain state. -/
structure Sha1St where
  a : Nat
  b : Nat
  c : Nat
  d : Nat
  e : Nat

/-- SHA-1 message schedule: 16 big-endian words extended to 80. -/
def sha1Schedule (chunk : List Nat) : List Nat :=
  let w16 := (List.range 16).map (fun i => beToNat ((chunk.drop (4 * i)).take 4))
  (List.range 64).foldl
    (fun w _ =>
      let i := w.length
      w ++ [rotl32 1 (w.getD (i - 3) 0 ^^^ w.getD (i - 8) 0 ^^^
        w.getD (i - 14) 0 ^^^ w.getD (i - 16) 0)])
    w16

/-- One SHA-1 round. -/
def sha1Round (w : List Nat) (st : Sha1St) (i : Nat) : Sha1St :=
  let fk :=
    if i < 20 then ((st.b &&& st.c) ^^^ ((st.b ^^^ (2 ^ 32 - 1)) &&& st.d), 1518500249)
    else if i < 40 then (st.b ^^^ st.c ^^^ st.d, 1859775393)
    else if i < 60 then
      ((st.b &&& st.c) ^^^ (st.b &&& st.d) ^^^ (st.c &&& st.d), 2400959708)
    else (st.b ^^^ st.c ^^^ st.d, 3395469782)
  let t := (rotl32 5 st.a + fk.1 + st.e + fk.2 + w.getD i 0) % 2 ^ 32
  ⟨t, st.a, rotl32 30 st.b, st.c, st.d⟩

/-- Compression of one chunk for SHA-1. -/
def sha1Compress (st : Sha1St) (chunk : List Nat) : Sha1St :=
  let w := sha1Schedule chunk
  let r := (List.range 80).foldl (sha1Round w) st
  ⟨add32 st.a r.a, add32 st.b r.b, add32 st.c r.c, add32 st.d r.d, add32 st.e r.e⟩

/-- SHA-1 of a byte list (`sha1.Sum`). -/
def sha1 (m : List Nat) : List Nat :=
  let p := shaPad m
  let st := (List.range (p.length / 64)).foldl
    (fun st i => sha1Compress st ((p.drop (64 * i)).take 64))
    ⟨1732584193, 4023233417, 2562383102, 271733878, 3285377520⟩
  be32 st.a ++ be32 st.b ++ be32 st.c ++ be32 st.d ++ be32 st.e

/-- HMAC-SHA256 (`hmac.New(sha256.New, key)`): block size 64. -/
def hmacSHA256 (key msg : List Nat) : List Nat :=
  let k1 := if 64 < key.length then sha256 key else key
  let k0 := k1 ++ List.replicate (64 - k1.length) 0
  sha256 ((k0.map (fun x => x ^^^ 0x5c)) ++ sha256 ((k0.map (fun x => x ^^^ 0x36)) ++ msg))

/-! ### AES-256 (FIPS 197) -/

/-- Multiplication in GF(2^8) modulo `x^8 + x^4 + x^3 + x + 1` (0x11b). -/
def gmul (a b : Nat) : Nat :=
  ((List.range 8).foldl
    (fun p i =>
      let p1 := if b / 2 ^ i % 2 = 1 then p.1 ^^^ p.2 else p.1
      let hi := 128 ≤ p.2
      let d := (p.2 * 2) % 256
      (p1, if hi then d ^^^ 0x1b else d))
    (0, a % 256)).1

/-- `x^254 = x⁻¹` in GF(2^8) (with `0 ↦ 0`), by repeated multiplication. -/
def ginv (a : Nat) : Nat :=
  ((List.range 253).foldl (fun p _ => (gmul p.1 a, p.2)) (a % 256, 0)).1

/-- Left rotation of a byte by one bit. -/
def rotl8 (x : Nat) : Nat := (x * 2) % 256 ||| x / 128

/-- The AES S-box as defined in FIPS 197 §5.1.1: the affine transform of the
multiplicative inverse. -/
def sbox (b : Nat) : Nat :=
  let y := ginv b
  let y1 := rotl8 y
  let y2 := rotl8 y1
  let y3 := rotl8 y2
  let y4 := rotl8 y3
  y ^^^ y1 ^^^ y2 ^^^ y3 ^^^ y4 ^^^ 0x63

/-- `SubWord` on a 32-bit word. -/
def subWord (w : Nat) : Nat :=
  sbox (w / 2 ^ 24 % 256) * 2 ^ 24 + sbox (w / 2 ^ 16 % 256) * 2 ^ 16 +
    sbox (w / 2 ^ 8 % 256) * 2 ^ 8 + sbox (w % 256)

/-- `RotWord`. -/
def rotWord (w : Nat) : Nat := (w % 2 ^ 24) * 2 ^ 8 + w / 2 ^ 24

/-- AES-256 key expansion: a 32-byte key to 60 round-key words. -/
def aesExpandKey (key : List Nat) : List Nat :=
  let w8 := (List.range 8).map (fun i => beToNat ((key.drop (4 * i)).take 4))
  (List.range 52).foldl
    (fun w _ =>
      let i := w.length
      let temp := w.getD (i - 1) 0
      let temp :=
        if i % 8 = 0 then
          subWord (rotWord temp) ^^^ ([0x01, 0x02, 0x04, 0x08, 0x10, 0x20, 0x40].getD
            (i / 8 - 1) 0) * 2 ^ 24
        else if i % 8 = 4 then subWord temp
        else temp
      w ++ [w.getD (i - 8) 0 ^^^ temp])
    w8

/-- `AddRoundKey`: state laid out with flat index `r + 4c`. -/
def addRoundKey (w : List Nat) (round : Nat) (st : List Nat) : List Nat :=
  List.ofFn (fun i : Fin 16 =>
    st.getD i 0 ^^^ (w.getD (4 * round + (i : Nat) / 4) 0) / 2 ^ (24 - 8 * ((i : Nat) % 4)) % 256)

/-- `SubBytes`. -/
def subBytes (st : List Nat) : List Nat := List.ofFn (fun i : Fin 16 => sbox (st.getD i 0))

/-- `ShiftRows`: row `r` rotates left by `r`; flat index `r + 4c`. -/
def shiftRows (st : List Nat) : List Nat :=
  List.ofFn (fun i : Fin 16 =>
    let r := (i : Nat) % 4
    let c := (i : Nat) / 4
    st.getD (r + 4 * ((c + r) % 4)) 0)

/-- `MixColumns`. -/
def mixColumns (st : List Nat) : List Nat :=
  List.ofFn (fun i : Fin 16 =>
    let r := (i : Nat) % 4
    let c := (i : Nat) / 4
    let s := fun j => st.getD (j + 4 * c) 0
    gmul 2 (s r) ^^^ gmul 3 (s ((r + 1) % 4)) ^^^ s ((r + 2) % 4) ^^^ s ((r + 3) % 4))

/-- AES-256 block encryption of a 16-byte block. -/
def aesEncryptBlock (key block : List Nat) : List Nat :=
  let w := aesExpandKey key
  let st := addRoundKey w 0 (List.ofFn (fun i : Fin 16 => block.getD i 0))
  let st := (List.range 13).foldl
    (fun st r => addRoundKey w (r + 1) (mixColumns (shiftRows (subBytes st)))) st
  addRoundKey w 14 (shiftRows (subBytes st))

/-- The OFB keystream (`cipher.NewOFB`): `E(iv), E(E(iv)), …`, `n` blocks. -/
def ofbKeystream (key : List Nat) : Nat → List Nat → List Nat
  | 0, _ => []
  | n + 1, prev =>
    let o := aesEncryptBlock key prev
    o ++ ofbKeystream key n o

/-- XOR of a data stream with a keystream (`cipher.StreamWriter/.StreamReader`). -/
def strXor (data ks : List Nat) : List Nat := List.zipWith (fun a b => a ^^^ b) data ks

/-! ## Crypto envelope (`network/crypto.go`) -/

/-- `signSHA256`: part header `0x0200 ‖ 36+len(U)`, then
`HMAC-SHA256(W, U ‖ P)`, then `U`, then `P`. -/
def signSHA256 (payload username password : List Nat) : List Nat :=
  be16 typeSignSHA256 ++ be16 (36 + username.length) ++
    hmacSHA256 password (username ++ payload) ++ username ++ payload

/-- Errors of `verifySHA256` / `decryptAES256` (collapsed to their kind). -/
inductive CErr where
  | partTooSmall
  | noSuchUser
  | invalidUsernameLength
  | readIVFailed
  | decryptionFailure
  | checksumMismatch
deriving DecidableEq, Repr

/-- `verifySHA256 part payload lookup`: `part` is the signature part's
payload (`MAC ‖ U`), `payload` the rest of the datagram.  Returns Go's
`(bool, error)` pair. -/
def verifySHA256 (part payload : List Nat)
    (lookup : List Nat → Option (List Nat)) : Bool × Option CErr :=
  if part.length ≤ 32 then (false, some .partTooSmall)
  else
    let hash := part.take 32
    let user := part.drop 32
    match lookup user with
    | none => (false, some .noSuchUser)
    | some password =>
      (decide (hash = hmacSHA256 password (user ++ payload)), none)

/-- `encryptAES256` (the 16 random bytes of `rand.Read` are passed in as
`iv`): header `0x0210 ‖ 42+len(U)+len(P)`, then `uint16 len(U) ‖ U ‖ IV`,
then the AES-256-OFB encryption (key `SHA-256(W)`) of `SHA-1(P) ‖ P`. -/
def encryptAES256 (plaintext username password iv : List Nat) : List Nat :=
  let key := sha256 password
  let data := sha1 plaintext ++ plaintext
  let ks := ofbKeystream key ((data.length + 15) / 16) iv
  be16 typeEncryptAES256 ++ be16 (42 + username.length + plaintext.length) ++
    be16 username.length ++ username ++ iv ++ strXor data ks

/-- Outcome of `decryptAES256`: plaintext, Go error, or panic (the Go code
slices `plaintext[:20]` without a length check). -/
inductive DecOut where
  | ok (plaintext : List Nat)
  | err (e : CErr)
  | panicked
deriving DecidableEq, Repr

/-- `decryptAES256 ciphertext lookup`: `ciphertext` is the encryption part's
payload (after the 4-byte part header). -/
def decryptAES256 (ciphertext : List Nat)
    (lookup : List Nat → Option (List Nat)) : DecOut :=
  if ciphertext.length < 2 then .panicked
  else
    let userLen := beToNat (ciphertext.take 2)
    let buf := ciphertext.drop 2
    if buf.length ≤ 42 + userLen then .err .invalidUsernameLength
    else
      let user := buf.take userLen
      let rest := buf.drop userLen
      match lookup user with
      | none => .err .noSuchUser
      | some password =>
        if rest.length < 16 then .err .readIVFailed
        else
          let iv := rest.take 16
          let body := rest.drop 16
          let key := sha256 password
          let plaintext := strXor body (ofbKeystream key ((body.length + 15) / 16) iv)
          if plaintext.length < 20 then .panicked
          else if sha1 (plaintext.drop 20) ≠ plaintext.take 20 then
            .err .checksumMismatch
          else .ok (plaintext.drop 20)

/-! ## Flush and the public write (`network/buffer.go`) -/

/-- `Buffer.flush`: a no-op on an empty buffer; otherwise the buffer bytes
are read out, wrapped by `sign`/`encrypt` when credentials are configured
(those local functions produce the same bytes as `signSHA256` and
`encryptAES256`), written as one datagram, and the shadow state resets. -/
def flush (b : Buffer) (iv : List Nat) : Buffer :=
  if b.buffer = [] then b
  else
    let datagram :=
      if b.username ≠ [] ∧ b.password ≠ [] then
        if b.encrypt then encryptAES256 b.buffer b.username b.password iv
        else signSHA256 b.buffer b.username b.password
      else b.buffer
    { b with buffer := [], state := zeroValueList, output := b.output ++ [datagram] }

/-- `Buffer.Flush` (the lock is irrelevant in this sequential model). -/
def Flush (b : Buffer) (iv : List Nat) : Buffer := flush b iv

/-- `Buffer.WriteValueList`: try the write; on failure with a non-empty
buffer, truncate to the old length, flush, and retry once; a failure on an
empty buffer is surfaced directly (without truncation, so partially
appended parts remain). -/
def WriteValueList (b : Buffer) (vl : ValueList) (iv : List Nat) : WRes :=
  let l := b.buffer.length
  match writeValueList b vl with
  | .ok b1 => .ok b1
  | .panicked b1 => .panicked b1
  | .err e b1 =>
    if l = 0 then .err e b1
    else
      let b2 := flush { b1 with buffer := b1.buffer.take l } iv
      writeValueList b2 vl

/-- A client operation against a `Buffer`; each carries the 16 random bytes
`rand.Read` would produce if that operation flushes an encrypting buffer. -/
inductive BufOp where
  | write (vl : ValueList) (iv : Fin 16 → Nat)
  | flushOp (iv : Fin 16 → Nat)

/-- The 16 IV bytes of an operation. -/
def ivList (f : Fin 16 → Nat) : List Nat := (List.ofFn f).map (· % 256)

/-- Run a sequence of operations; a Go panic aborts the run (datagrams
already written remain written). -/
def runOps (b : Buffer) : List BufOp → Buffer
  | [] => b
  | .write vl iv :: ops =>
    match WriteValueList b vl (ivList iv) with
    | .ok b1 => runOps b1 ops
    | .err _ b1 => runOps b1 ops
    | .panicked b1 => b1
  | .flushOp iv :: ops => runOps (flush b (ivList iv)) ops

/-- The three public constructors as one entry point. -/
inductive BufInit where
  | plain
  | signed (username password : List Nat)
  | encrypted (username password : List Nat)

def mkBuffer : BufInit → Buffer
  | .plain => NewBuffer
  | .signed u w => NewBufferSigned u w
  | .encrypted u w => NewBufferEncrypted u w

/-! ## The bytes appended by a successful write -/

/-- The bytes of one string part. -/
def stringPart (typ : Nat) (s : List Nat) : List Nat :=
  be16 typ ++ be16 (4 + s.length + 1) ++ s ++ [0]

/-- The bytes of one integer part. -/
def intPart (typ n : Nat) : List Nat := be16 typ ++ be16 12 ++ be64 n

/-- The type tags of a values part (counters never reach this point: the
encoder panics on them first). -/
def tagsOf (values : List Value) : List Nat :=
  values.map fun v =>
    match v with
    | .gauge _ => dsTypeGauge
    | .derive _ => dsTypeDerive
    | .counter _ => dsTypeCounter

/-- The value cells of a values part. -/
def cellsOf (values : List Value) : List Nat :=
  values.flatMap fun v =>
    match v with
    | .gauge bits => if isNaN64 bits then nanBytes else le64 bits
    | .derive v => be64 (intToUint64 v)
    | .counter v => be64 v

/-- The bytes of one values part. -/
def valuesPart (values : List Value) : List Nat :=
  be16 typeValues ++ be16 (6 + 9 * values.length) ++ be16 values.length ++
    tagsOf values ++ cellsOf values

/-- The bytes a successful `writeIdentifier` appends: the five string parts,
each conditional on differing from the shadow identifier. -/
def idBytes (sid id : Identifier) : List Nat :=
  (if id.host = sid.host then [] else stringPart typeHost id.host) ++
  (if id.plugin = sid.plugin then [] else stringPart typePlugin id.plugin) ++
  (if id.pluginInstance = sid.pluginInstance then []
    else stringPart typePluginInstance id.pluginInstance) ++
  (if id.type_ = sid.type_ then [] else stringPart typeType id.type_) ++
  (if id.typeInstance = sid.typeInstance then []
    else stringPart typeTypeInstance id.typeInstance)

/-- The bytes a successful `writeValueList` appends. -/
def encBytes (st : ValueList) (vl : ValueList) : List Nat :=
  idBytes st.id vl.id ++
  (if st.time = vl.time then [] else intPart typeTimeHR (Cdtime vl.time)) ++
  (if st.interval = vl.interval then []
    else intPart typeIntervalHR (CdtimeDuration vl.interval)) ++
  valuesPart vl.values

/-- The shadow state after a successful `writeValueList`. -/
def encState (st : ValueList) (vl : ValueList) : ValueList :=
  { st with id := vl.id, time := vl.time, interval := vl.interval }

/-- No value of the list is a `Counter`. -/
def noCounter (values : List Value) : Bool :=
  values.all fun v => match v with | .counter _ => false | _ => true

/-! ## Encoder lemmas -/

theorem free_def (b : Buffer) :
    free b = if b.size < (b.buffer.length : Int) then 0 else b.size - b.buffer.length := rfl

theorem le_free_iff (b : Buffer) (x : Int) (hx : 0 < x) :
    x ≤ free b ↔ (b.buffer.length : Int) + x ≤ b.size := by
  rw [free_def]
  split <;> omega

theorem writeString_ok (b : Buffer) (typ : Nat) (s : List Nat)
    (h : (b.buffer.length : Int) + (5 + s.length) ≤ b.size) :
    writeString b typ s = .ok { b with buffer := b.buffer ++ stringPart typ s } := by
  have hfree : ((4 + s.length + 1 : Nat) : Int) ≤ free b := by
    rw [le_free_iff b _ (by positivity)]
    push_cast
    omega
  simp only [writeString, stringPart, if_neg (not_lt.mpr hfree), List.append_assoc]

/-- The buffer carried by any outcome. -/
def WRes.buf : WRes → Buffer
  | .ok b => b
  | .err _ b => b
  | .panicked b => b

/-- Outcome discriminators. -/
def WRes.isOk : WRes → Bool
  | .ok _ => true
  | _ => false

def WRes.isErr : WRes → Bool
  | .err _ _ => true
  | _ => false

def WRes.isPanic : WRes → Bool
  | .panicked _ => true
  | _ => false

/-- Two buffers with the same configuration (everything but bytes/state). -/
def sameCfg (a b : Buffer) : Prop :=
  a.size = b.size ∧ a.username = b.username ∧ a.password = b.password ∧
    a.encrypt = b.encrypt ∧ a.output = b.output

theorem sameCfg_refl (b : Buffer) : sameCfg b b := ⟨rfl, rfl, rfl, rfl, rfl⟩

theorem sameCfg_trans {a b c : Buffer} (h1 : sameCfg a b) (h2 : sameCfg b c) :
    sameCfg a c := by
  obtain ⟨x1, x2, x3, x4, x5⟩ := h1
  obtain ⟨y1, y2, y3, y4, y5⟩ := h2
  exact ⟨x1.trans y1, x2.trans y2, x3.trans y3, x4.trans y4, x5.trans y5⟩

theorem sameCfg_wbind {b : Buffer} {r : WRes} {f : Buffer → WRes}
    (hr : sameCfg r.buf b) (hf : ∀ b1, sameCfg (f b1).buf b1) :
    sameCfg (wbind r f).buf b := by
  cases r with
  | ok b1 => exact sameCfg_trans (hf b1) hr
  | err e b1 => exact hr
  | panicked b1 => exact hr

theorem sameCfg_writeString (b : Buffer) (typ : Nat) (s : List Nat) :
    sameCfg (writeString b typ s).buf b := by
  unfold writeString
  dsimp only
  split <;> exact ⟨rfl, rfl, rfl, rfl, rfl⟩

theorem sameCfg_writeInt (b : Buffer) (typ n : Nat) :
    sameCfg (writeInt b typ n).buf b := by
  unfold writeInt
  split <;> exact ⟨rfl, rfl, rfl, rfl, rfl⟩

theorem sameCfg_idStep (typ : Nat) (get : Identifier → List Nat)
    (set : Identifier → List Nat → Identifier) (id : Identifier) (b : Buffer) :
    sameCfg (idStep typ get set id b).buf b := by
  unfold idStep
  split
  · exact sameCfg_refl b
  · exact sameCfg_wbind (sameCfg_writeString b typ (get id))
      (fun b1 => ⟨rfl, rfl, rfl, rfl, rfl⟩)

theorem sameCfg_writeIdentifier (b : Buffer) (id : Identifier) :
    sameCfg (writeIdentifier b id).buf b := by
  unfold writeIdentifier
  refine sameCfg_wbind (sameCfg_idStep _ _ _ _ _) (fun b1 => ?_)
  refine sameCfg_wbind (sameCfg_idStep _ _ _ _ _) (fun b2 => ?_)
  refine sameCfg_wbind (sameCfg_idStep _ _ _ _ _) (fun b3 => ?_)
  refine sameCfg_wbind (sameCfg_idStep _ _ _ _ _) (fun b4 => ?_)
  exact sameCfg_idStep _ _ _ _ _

theorem sameCfg_writeTime (b : Buffer) (t : GoTime) :
    sameCfg (writeTime b t).buf b := by
  unfold writeTime
  split
  · exact sameCfg_refl b
  · exact sameCfg_writeInt _ _ _

theorem sameCfg_writeInterval (b : Buffer) (d : GoDuration) :
    sameCfg (writeInterval b d).buf b := by
  unfold writeInterval
  split
  · exact sameCfg_refl b
  · exact sameCfg_writeInt _ _ _

theorem writeValuesTags_shape (values : List Value) (buf : List Nat) :
    (∃ ext, writeValuesTags buf values = .error (buf ++ ext)) ∨
      ∃ ext, writeValuesTags buf values = .ok (buf ++ ext) := by
  induction values generalizing buf with
  | nil => exact Or.inr ⟨[], by simp [writeValuesTags]⟩
  | cons v vs ih =>
    cases v with
    | gauge bits =>
      rcases ih (buf ++ [dsTypeGauge]) with ⟨ext, h⟩ | ⟨ext, h⟩
      · exact Or.inl ⟨[dsTypeGauge] ++ ext,
          by simpa [writeValuesTags, List.append_assoc] using h⟩
      · exact Or.inr ⟨[dsTypeGauge] ++ ext,
          by simpa [writeValuesTags, List.append_assoc] using h⟩
    | derive v =>
      rcases ih (buf ++ [dsTypeDerive]) with ⟨ext, h⟩ | ⟨ext, h⟩
      · exact Or.inl ⟨[dsTypeDerive] ++ ext,
          by simpa [writeValuesTags, List.append_assoc] using h⟩
      · exact Or.inr ⟨[dsTypeDerive] ++ ext,
          by simpa [writeValuesTags, List.append_assoc] using h⟩
    | counter v => exact Or.inl ⟨[], by simp [writeValuesTags]⟩

theorem writeValuesCells_shape (values : List Value) (buf : List Nat) :
    (∃ ext, writeValuesCells buf values = .error (buf ++ ext)) ∨
      ∃ ext, writeValuesCells buf values = .ok (buf ++ ext) := by
  induction values generalizing buf with
  | nil => exact Or.inr ⟨[], by simp [writeValuesCells]⟩
  | cons v vs ih =>
    cases v with
    | gauge bits =>
      rcases ih (buf ++ if isNaN64 bits then nanBytes else le64 bits) with ⟨ext, h⟩ | ⟨ext, h⟩
      · exact Or.inl ⟨(if isNaN64 bits then nanBytes else le64 bits) ++ ext,
          by simpa [writeValuesCells, List.append_assoc] using h⟩
      · exact Or.inr ⟨(if isNaN64 bits then nanBytes else le64 bits) ++ ext,
          by simpa [writeValuesCells, List.append_assoc] using h⟩
    | derive v =>
      rcases ih (buf ++ be64 (intToUint64 v)) with ⟨ext, h⟩ | ⟨ext, h⟩
      · exact Or.inl ⟨be64 (intToUint64 v) ++ ext,
          by simpa [writeValuesCells, List.append_assoc] using h⟩
      · exact Or.inr ⟨be64 (intToUint64 v) ++ ext,
          by simpa [writeValuesCells, List.append_assoc] using h⟩
    | counter v => exact Or.inl ⟨[], by simp [writeValuesCells]⟩

theorem sameCfg_writeValues (b : Buffer) (values : List Value) :
    sameCfg (writeValues b values).buf b := by
  unfold writeValues
  dsimp only
  split
  · exact sameCfg_refl b
  · rcases writeValuesTags_shape values
        (b.buffer ++ be16 typeValues ++ be16 (6 + 9 * values.length) ++ be16 values.length)
      with ⟨ext, h⟩ | ⟨ext, h⟩ <;> rw [h]
    · exact ⟨rfl, rfl, rfl, rfl, rfl⟩
    · rcases writeValuesCells_shape values
          (b.buffer ++ be16 typeValues ++ be16 (6 + 9 * values.length) ++
            be16 values.length ++ ext) with ⟨ext2, h2⟩ | ⟨ext2, h2⟩ <;> simp only [h2] <;>
        exact ⟨rfl, rfl, rfl, rfl, rfl⟩

theorem sameCfg_writeValueList (b : Buffer) (vl : ValueList) :
    sameCfg (writeValueList b vl).buf b := by
  unfold writeValueList
  refine sameCfg_wbind (sameCfg_writeIdentifier _ _) (fun b1 => ?_)
  refine sameCfg_wbind (sameCfg_writeTime _ _) (fun b2 => ?_)
  refine sameCfg_wbind (sameCfg_writeInterval _ _) (fun b3 => ?_)
  exact sameCfg_writeValues _ _

theorem stringPart_len (typ : Nat) (s : List Nat) :
    (stringPart typ s).length = 5 + s.length := by
  simp [stringPart, be16]
  omega

theorem intPart_len (typ n : Nat) : (intPart typ n).length = 12 := by
  simp [intPart, be16, be64]

theorem tagsOf_len (values : List Value) : (tagsOf values).length = values.length := by
  simp [tagsOf]

theorem cellsOf_len (values : List Value) :
    (cellsOf values).length = 8 * values.length := by
  induction values with
  | nil => simp [cellsOf]
  | cons v vs ih =>
    cases v with
    | gauge bits =>
      by_cases h : isNaN64 bits <;>
        simp [cellsOf, h, nanBytes, le64] at ih ⊢ <;> omega
    | derive v => simp [cellsOf, be64] at ih ⊢; omega
    | counter v => simp [cellsOf, be64] at ih ⊢; omega

theorem valuesPart_len (values : List Value) :
    (valuesPart values).length = 6 + 9 * values.length := by
  simp [valuesPart, be16, tagsOf_len, cellsOf_len]
  omega

theorem writeInt_ok (b : Buffer) (typ n : Nat)
    (h : (b.buffer.length : Int) + 12 ≤ b.size) :
    writeInt b typ n = .ok { b with buffer := b.buffer ++ intPart typ n } := by
  have hfree : (12 : Int) ≤ free b := (le_free_iff b 12 (by norm_num)).mpr h
  simp only [writeInt, if_neg (not_lt.mpr hfree), intPart, List.append_assoc]

theorem idStep_eq (typ : Nat) (get : Identifier → List Nat)
    (set : Identifier → List Nat → Identifier) (id : Identifier) (b : Buffer)
    (hskip : get id = get b.state.id → set b.state.id (get id) = b.state.id)
    (hfit : (b.buffer.length : Int) +
      ((if get id = get b.state.id then [] else stringPart typ (get id)).length : Int) ≤
        b.size) :
    idStep typ get set id b = .ok { b with
      buffer := b.buffer ++ (if get id = get b.state.id then [] else stringPart typ (get id)),
      state := { b.state with id := set b.state.id (get id) } } := by
  by_cases h : get id = get b.state.id
  · simp only [idStep, if_pos h, hskip h, List.append_nil]
  · rw [if_neg h] at hfit
    rw [stringPart_len] at hfit
    rw [idStep, if_neg h, writeString_ok b typ (get id) (by push_cast at hfit ⊢; omega)]
    simp only [wbind, if_neg h]

theorem writeTime_eq (b : Buffer) (t : GoTime)
    (hfit : (b.buffer.length : Int) +
      ((if b.state.time = t then [] else intPart typeTimeHR (Cdtime t)).length : Int) ≤
        b.size) :
    writeTime b t = .ok { b with
      buffer := b.buffer ++ (if b.state.time = t then [] else intPart typeTimeHR (Cdtime t)),
      state := { b.state with time := t } } := by
  by_cases h : b.state.time = t
  · subst h
    simp [writeTime]
  · rw [if_neg h] at hfit
    rw [intPart_len] at hfit
    rw [if_neg h, writeTime, if_neg h,
      writeInt_ok { b with state := { b.state with time := t } } typeTimeHR (Cdtime t)
        (by push_cast at hfit ⊢; omega)]

theorem writeInterval_eq (b : Buffer) (d : GoDuration)
    (hfit : (b.buffer.length : Int) +
      ((if b.state.interval = d then []
        else intPart typeIntervalHR (CdtimeDuration d)).length : Int) ≤ b.size) :
    writeInterval b d = .ok { b with
      buffer := b.buffer ++
        (if b.state.interval = d then [] else intPart typeIntervalHR (CdtimeDuration d)),
      state := { b.state with interval := d } } := by
  by_cases h : b.state.interval = d
  · subst h
    simp [writeInterval]
  · rw [if_neg h] at hfit
    rw [intPart_len] at hfit
    rw [if_neg h, writeInterval, if_neg h,
      writeInt_ok { b with state := { b.state with interval := d } } typeIntervalHR
        (CdtimeDuration d) (by push_cast at hfit ⊢; omega)]

theorem writeValuesTags_ok (values : List Value) (hnc : noCounter values)
    (buf : List Nat) : writeValuesTags buf values = .ok (buf ++ tagsOf values) := by
  induction values generalizing buf with
  | nil => simp [writeValuesTags, tagsOf]
  | cons v vs ih =>
    cases v with
    | gauge bits =>
      have hvs : noCounter vs := by
        simp only [noCounter, List.all_cons, Bool.and_eq_true] at hnc
        exact hnc.2
      simpa [writeValuesTags, tagsOf, List.append_assoc] using ih hvs (buf ++ [dsTypeGauge])
    | derive v =>
      have hvs : noCounter vs := by
        simp only [noCounter, List.all_cons, Bool.and_eq_true] at hnc
        exact hnc.2
      simpa [writeValuesTags, tagsOf, List.append_assoc] using ih hvs (buf ++ [dsTypeDerive])
    | counter v => simp [noCounter] at hnc

theorem writeValuesCells_ok (values : List Value) (hnc : noCounter values)
    (buf : List Nat) : writeValuesCells buf values = .ok (buf ++ cellsOf values) := by
  induction values generalizing buf with
  | nil => simp [writeValuesCells, cellsOf]
  | cons v vs ih =>
    cases v with
    | gauge bits =>
      have hvs : noCounter vs := by
        simp only [noCounter, List.all_cons, Bool.and_eq_true] at hnc
        exact hnc.2
      simpa [writeValuesCells, cellsOf, List.append_assoc] using
        ih hvs (buf ++ if isNaN64 bits then nanBytes else le64 bits)
    | derive v =>
      have hvs : noCounter vs := by
        simp only [noCounter, List.all_cons, Bool.and_eq_true] at hnc
        exact hnc.2
      simpa [writeValuesCells, cellsOf, List.append_assoc] using
        ih hvs (buf ++ be64 (intToUint64 v))
    | counter v => simp [noCounter] at hnc

theorem writeValues_ok (b : Buffer) (values : List Value) (hnc : noCounter values)
    (hfit : (b.buffer.length : Int) + ((valuesPart values).length : Int) ≤ b.size) :
    writeValues b values = .ok { b with buffer := b.buffer ++ valuesPart values } := by
  rw [valuesPart_len] at hfit
  have hfree : ((6 + 9 * values.length : Nat) : Int) ≤ free b :=
    (le_free_iff b _ (by positivity)).mpr hfit
  have h1 := writeValuesTags_ok values hnc
    (b.buffer ++ be16 typeValues ++ be16 (6 + 9 * values.length) ++ be16 values.length)
  have h2 := writeValuesCells_ok values hnc
    (b.buffer ++ be16 typeValues ++ be16 (6 + 9 * values.length) ++ be16 values.length ++
      tagsOf values)
  simp only [List.append_assoc] at h1 h2
  rw [writeValues]
  dsimp only
  simp only [if_neg (not_lt.mpr hfree), List.append_assoc, h1, h2, valuesPart]

theorem wbind_ok (b1 : Buffer) (f : Buffer → WRes) : wbind (.ok b1) f = f b1 := rfl

theorem writeIdentifier_ok (b : Buffer) (id : Identifier)
    (hfit : (b.buffer.length : Int) + ((idBytes b.state.id id).length : Int) ≤ b.size) :
    writeIdentifier b id = .ok { b with
      buffer := b.buffer ++ idBytes b.state.id id,
      state := { b.state with id := id } } := by
  have hsum : (idBytes b.state.id id).length =
      (if id.host = b.state.id.host then ([] : List Nat)
        else stringPart typeHost id.host).length +
      ((if id.plugin = b.state.id.plugin then ([] : List Nat)
        else stringPart typePlugin id.plugin).length +
      ((if id.pluginInstance = b.state.id.pluginInstance then ([] : List Nat)
        else stringPart typePluginInstance id.pluginInstance).length +
      ((if id.type_ = b.state.id.type_ then ([] : List Nat)
        else stringPart typeType id.type_).length +
      (if id.typeInstance = b.state.id.typeInstance then ([] : List Nat)
        else stringPart typeTypeInstance id.typeInstance).length))) := by
    simp [idBytes]
  rw [writeIdentifier,
    idStep_eq typeHost Identifier.host (fun i s => { i with host := s }) id b
      (fun h => by rw [h]) (by push_cast at hfit ⊢; omega), wbind_ok]
  rw [idStep_eq typePlugin Identifier.plugin (fun i s => { i with plugin := s }) id _
      (fun h => by rw [h]) (by simp only [List.length_append]; push_cast at hfit ⊢; omega),
    wbind_ok]
  rw [idStep_eq typePluginInstance Identifier.pluginInstance
      (fun i s => { i with pluginInstance := s }) id _
      (fun h => by rw [h]) (by simp only [List.length_append]; push_cast at hfit ⊢; omega),
    wbind_ok]
  rw [idStep_eq typeType Identifier.type_ (fun i s => { i with type_ := s }) id _
      (fun h => by rw [h]) (by simp only [List.length_append]; push_cast at hfit ⊢; omega),
    wbind_ok]
  rw [idStep_eq typeTypeInstance Identifier.typeInstance
      (fun i s => { i with typeInstance := s }) id _
      (fun h => by rw [h]) (by simp only [List.length_append]; push_cast at hfit ⊢; omega)]
  simp only [idBytes, List.append_assoc]

theorem writeValueList_ok (b : Buffer) (vl : ValueList) (hnc : noCounter vl.values)
    (hfit : (b.buffer.length : Int) + ((encBytes b.state vl).length : Int) ≤ b.size) :
    writeValueList b vl = .ok { b with
      buffer := b.buffer ++ encBytes b.state vl,
      state := encState b.state vl } := by
  have hsum : (encBytes b.state vl).length =
      (idBytes b.state.id vl.id).length +
      ((if b.state.time = vl.time then ([] : List Nat)
        else intPart typeTimeHR (Cdtime vl.time)).length +
      ((if b.state.interval = vl.interval then ([] : List Nat)
        else intPart typeIntervalHR (CdtimeDuration vl.interval)).length +
      (valuesPart vl.values).length)) := by
    simp [encBytes]
  rw [writeValueList,
    writeIdentifier_ok b vl.id (by push_cast at hfit ⊢; omega), wbind_ok]
  rw [writeTime_eq _ vl.time
      (by simp only [List.length_append]; push_cast at hfit ⊢; omega), wbind_ok]
  rw [writeInterval_eq _ vl.interval
      (by simp only [List.length_append]; push_cast at hfit ⊢; omega), wbind_ok]
  rw [writeValues_ok _ vl.values hnc
      (by simp only [List.length_append]; push_cast at hfit ⊢; omega)]
  simp only [encBytes, encState, List.append_assoc]


theorem idStep_cases (typ : Nat) (get : Identifier → List Nat)
    (set : Identifier → List Nat → Identifier) (id : Identifier) (b : Buffer)
    (hskip : get id = get b.state.id → set b.state.id (get id) = b.state.id) :
    idStep typ get set id b = .err .notEnoughSpace b ∨
    idStep typ get set id b = .ok { b with
      buffer := b.buffer ++ (if get id = get b.state.id then [] else stringPart typ (get id)),
      state := { b.state with id := set b.state.id (get id) } } := by
  by_cases h : get id = get b.state.id
  · right
    simp only [idStep, if_pos h, hskip h, List.append_nil]
  · rw [idStep, if_neg h]
    unfold writeString
    dsimp only
    by_cases hc : ((4 + (get id).length + 1 : Nat) : Int) > free b
    · rw [if_pos hc]
      exact Or.inl rfl
    · rw [if_neg hc]
      right
      simp only [wbind, stringPart, List.append_assoc, if_neg h]

theorem writeTime_cases (b : Buffer) (t : GoTime) :
    writeTime b t = .err .notEnoughSpace { b with state := { b.state with time := t } } ∨
    writeTime b t = .ok { b with
      buffer := b.buffer ++ (if b.state.time = t then [] else intPart typeTimeHR (Cdtime t)),
      state := { b.state with time := t } } := by
  by_cases h : b.state.time = t
  · right
    subst h
    simp [writeTime]
  · rw [writeTime, if_neg h]
    unfold writeInt
    by_cases hc : (12 : Int) > free { b with state := { b.state with time := t } }
    · rw [if_pos hc]
      exact Or.inl rfl
    · rw [if_neg hc]
      right
      simp only [intPart, List.append_assoc, if_neg h]

theorem writeInterval_cases (b : Buffer) (d : GoDuration) :
    writeInterval b d =
      .err .notEnoughSpace { b with state := { b.state with interval := d } } ∨
    writeInterval b d = .ok { b with
      buffer := b.buffer ++
        (if b.state.interval = d then [] else intPart typeIntervalHR (CdtimeDuration d)),
      state := { b.state with interval := d } } := by
  by_cases h : b.state.interval = d
  · right
    subst h
    simp [writeInterval]
  · rw [writeInterval, if_neg h]
    unfold writeInt
    by_cases hc : (12 : Int) > free { b with state := { b.state with interval := d } }
    · rw [if_pos hc]
      exact Or.inl rfl
    · rw [if_neg hc]
      right
      simp only [intPart, List.append_assoc, if_neg h]

theorem writeValues_cases (b : Buffer) (values : List Value) :
    writeValues b values = .err .notEnoughSpace b ∨
    ((b.buffer.length : Int) + ((valuesPart values).length : Int) ≤ b.size ∧
      ∃ b', writeValues b values = .ok b' ∨ writeValues b values = .panicked b') := by
  rw [writeValues]
  dsimp only
  split
  · exact Or.inl rfl
  · right
    rename_i hle
    refine ⟨?_, ?_⟩
    · rw [valuesPart_len]
      have := (le_free_iff b ((6 + 9 * values.length : Nat) : Int) (by positivity)).mp
        (not_lt.mp hle)
      push_cast at this ⊢
      omega
    · rcases writeValuesTags_shape values
          (b.buffer ++ be16 typeValues ++ be16 (6 + 9 * values.length) ++ be16 values.length)
        with ⟨ext, h⟩ | ⟨ext, h⟩ <;> simp only [h]
      · exact ⟨_, Or.inr rfl⟩
      · rcases writeValuesCells_shape values
            (b.buffer ++ be16 typeValues ++ be16 (6 + 9 * values.length) ++
              be16 values.length ++ ext) with ⟨ext2, h2⟩ | ⟨ext2, h2⟩ <;> simp only [h2]
        · exact ⟨_, Or.inr rfl⟩
        · exact ⟨_, Or.inl rfl⟩

theorem wbind_assoc (r : WRes) (f g : Buffer → WRes) :
    wbind (wbind r f) g = wbind r (fun b => wbind (f b) g) := by
  cases r <;> rfl

/-- The tail of `writeValueList` after the identifier and time parts. -/
def writeTail2 (vl : ValueList) (b2 : Buffer) : WRes :=
  wbind (writeInterval b2 vl.interval) fun b3 => writeValues b3 vl.values

/-- The tail of `writeValueList` after the identifier parts. -/
def writeTail1 (vl : ValueList) (b1 : Buffer) : WRes :=
  wbind (writeTime b1 vl.time) (fun b2 => writeTail2 vl b2)

theorem writeTail2_cases (b2 : Buffer) (vl : ValueList) :
    (∃ b', writeTail2 vl b2 = .err .notEnoughSpace b') ∨
    ((b2.buffer.length : Int) +
        ((if b2.state.interval = vl.interval then ([] : List Nat)
          else intPart typeIntervalHR (CdtimeDuration vl.interval)).length +
          (valuesPart vl.values).length : Nat) ≤ b2.size ∧
      ∃ b', writeTail2 vl b2 = .ok b' ∨ writeTail2 vl b2 = .panicked b') := by
  rw [writeTail2]
  rcases writeInterval_cases b2 vl.interval with h | h <;> rw [h]
  · exact Or.inl ⟨_, rfl⟩
  · simp only [wbind_ok]
    rcases writeValues_cases { b2 with
        buffer := b2.buffer ++ (if b2.state.interval = vl.interval then []
          else intPart typeIntervalHR (CdtimeDuration vl.interval)),
        state := { b2.state with interval := vl.interval } } vl.values
      with h2 | ⟨hfit, b', h2⟩
    · rw [h2]
      exact Or.inl ⟨_, rfl⟩
    · refine Or.inr ⟨?_, ?_⟩
      · simp only [List.length_append] at hfit
        push_cast at hfit ⊢
        omega
      · rcases h2 with h2 | h2 <;> rw [h2]
        · exact ⟨b', Or.inl rfl⟩
        · exact ⟨b', Or.inr rfl⟩

theorem writeTail1_cases (b1 : Buffer) (vl : ValueList) :
    (∃ b', writeTail1 vl b1 = .err .notEnoughSpace b') ∨
    ((b1.buffer.length : Int) +
        ((if b1.state.time = vl.time then ([] : List Nat)
          else intPart typeTimeHR (Cdtime vl.time)).length +
        ((if b1.state.interval = vl.interval then ([] : List Nat)
          else intPart typeIntervalHR (CdtimeDuration vl.interval)).length +
          (valuesPart vl.values).length) : Nat) ≤ b1.size ∧
      ∃ b', writeTail1 vl b1 = .ok b' ∨ writeTail1 vl b1 = .panicked b') := by
  rw [writeTail1]
  rcases writeTime_cases b1 vl.time with h | h <;> rw [h]
  · exact Or.inl ⟨_, rfl⟩
  · simp only [wbind_ok]
    rcases writeTail2_cases { b1 with
        buffer := b1.buffer ++ (if b1.state.time = vl.time then []
          else intPart typeTimeHR (Cdtime vl.time)),
        state := { b1.state with time := vl.time } } vl
      with ⟨b', h2⟩ | ⟨hfit, b', h2⟩
    · exact Or.inl ⟨b', h2⟩
    · refine Or.inr ⟨?_, ?_⟩
      · simp only [List.length_append] at hfit
        push_cast at hfit ⊢
        omega
      · rcases h2 with h2 | h2
        · exact ⟨b', Or.inl h2⟩
        · exact ⟨b', Or.inr h2⟩

/-- The tail of `writeValueList` starting at the `typeInstance` identifier part. -/
def writeTailI5 (vl : ValueList) (b : Buffer) : WRes :=
  wbind (idStep typeTypeInstance Identifier.typeInstance (fun i s => { i with typeInstance := s }) vl.id b) (fun b1 => writeTail1 vl b1)

/-- The tail of `writeValueList` starting at the `type_` identifier part. -/
def writeTailI4 (vl : ValueList) (b : Buffer) : WRes :=
  wbind (idStep typeType Identifier.type_ (fun i s => { i with type_ := s }) vl.id b) (fun b1 => writeTailI5 vl b1)

/-- The tail of `writeValueList` starting at the `pluginInstance` identifier part. -/
def writeTailI3 (vl : ValueList) (b : Buffer) : WRes :=
  wbind (idStep typePluginInstance Identifier.pluginInstance (fun i s => { i with pluginInstance := s }) vl.id b) (fun b1 => writeTailI4 vl b1)

/-- The tail of `writeValueList` starting at the `plugin` identifier part. -/
def writeTailI2 (vl : ValueList) (b : Buffer) : WRes :=
  wbind (idStep typePlugin Identifier.plugin (fun i s => { i with plugin := s }) vl.id b) (fun b1 => writeTailI3 vl b1)

/-- The tail of `writeValueList` starting at the `host` identifier part. -/
def writeTailI1 (vl : ValueList) (b : Buffer) : WRes :=
  wbind (idStep typeHost Identifier.host (fun i s => { i with host := s }) vl.id b) (fun b1 => writeTailI2 vl b1)

theorem writeTailI5_cases (b : Buffer) (vl : ValueList) :
    (∃ b', writeTailI5 vl b = .err .notEnoughSpace b') ∨
    ((b.buffer.length : Int) +
        ((if vl.id.typeInstance = b.state.id.typeInstance then ([] : List Nat)
          else stringPart typeTypeInstance vl.id.typeInstance).length +
        ((if b.state.time = vl.time then ([] : List Nat)
          else intPart typeTimeHR (Cdtime vl.time)).length +
        ((if b.state.interval = vl.interval then ([] : List Nat)
          else intPart typeIntervalHR (CdtimeDuration vl.interval)).length +
        ((valuesPart vl.values).length))) : Nat) ≤ b.size ∧
      ∃ b', writeTailI5 vl b = .ok b' ∨ writeTailI5 vl b = .panicked b') := by
  rw [writeTailI5]
  rcases idStep_cases typeTypeInstance Identifier.typeInstance (fun i s => { i with typeInstance := s }) vl.id b
      (fun h => by rw [h]) with h | h <;> rw [h]
  · exact Or.inl ⟨_, rfl⟩
  · simp only [wbind_ok]
    rcases writeTail1_cases { b with
        buffer := b.buffer ++ (if vl.id.typeInstance = b.state.id.typeInstance then []
          else stringPart typeTypeInstance vl.id.typeInstance),
        state := { b.state with id := { b.state.id with typeInstance := vl.id.typeInstance } } } vl
      with ⟨b', h2⟩ | ⟨hfit, b', h2⟩
    · exact Or.inl ⟨b', h2⟩
    · refine Or.inr ⟨?_, ?_⟩
      · simp only [List.length_append] at hfit
        push_cast at hfit ⊢
        omega
      · rcases h2 with h2 | h2
        · exact ⟨b', Or.inl h2⟩
        · exact ⟨b', Or.inr h2⟩

theorem writeTailI4_cases (b : Buffer) (vl : ValueList) :
    (∃ b', writeTailI4 vl b = .err .notEnoughSpace b') ∨
    ((b.buffer.length : Int) +
        ((if vl.id.type_ = b.state.id.type_ then ([] : List Nat)
          else stringPart typeType vl.id.type_).length +
        ((if vl.id.typeInstance = b.state.id.typeInstance then ([] : List Nat)
          else stringPart typeTypeInstance vl.id.typeInstance).length +
        ((if b.state.time = vl.time then ([] : List Nat)
          else intPart typeTimeHR (Cdtime vl.time)).length +
        ((if b.state.interval = vl.interval then ([] : List Nat)
          else intPart typeIntervalHR (CdtimeDuration vl.interval)).length +
        ((valuesPart vl.values).length)))) : Nat) ≤ b.size ∧
      ∃ b', writeTailI4 vl b = .ok b' ∨ writeTailI4 vl b = .panicked b') := by
  rw [writeTailI4]
  rcases idStep_cases typeType Identifier.type_ (fun i s => { i with type_ := s }) vl.id b
      (fun h => by rw [h]) with h | h <;> rw [h]
  · exact Or.inl ⟨_, rfl⟩
  · simp only [wbind_ok]
    rcases writeTailI5_cases { b with
        buffer := b.buffer ++ (if vl.id.type_ = b.state.id.type_ then []
          else stringPart typeType vl.id.type_),
        state := { b.state with id := { b.state.id with type_ := vl.id.type_ } } } vl
      with ⟨b', h2⟩ | ⟨hfit, b', h2⟩
    · exact Or.inl ⟨b', h2⟩
    · refine Or.inr ⟨?_, ?_⟩
      · simp only [List.length_append] at hfit
        push_cast at hfit ⊢
        omega
      · rcases h2 with h2 | h2
        · exact ⟨b', Or.inl h2⟩
        · exact ⟨b', Or.inr h2⟩

theorem writeTailI3_cases (b : Buffer) (vl : ValueList) :
    (∃ b', writeTailI3 vl b = .err .notEnoughSpace b') ∨
    ((b.buffer.length : Int) +
        ((if vl.id.pluginInstance = b.state.id.pluginInstance then ([] : List Nat)
          else stringPart typePluginInstance vl.id.pluginInstance).length +
        ((if vl.id.type_ = b.state.id.type_ then ([] : List Nat)
          else stringPart typeType vl.id.type_).length +
        ((if vl.id.typeInstance = b.state.id.typeInstance then ([] : List Nat)
          else stringPart typeTypeInstance vl.id.typeInstance).length +
        ((if b.state.time = vl.time then ([] : List Nat)
          else intPart typeTimeHR (Cdtime vl.time)).length +
        ((if b.state.interval = vl.interval then ([] : List Nat)
          else intPart typeIntervalHR (CdtimeDuration vl.interval)).length +
        ((valuesPart vl.values).length))))) : Nat) ≤ b.size ∧
      ∃ b', writeTailI3 vl b = .ok b' ∨ writeTailI3 vl b = .panicked b') := by
  rw [writeTailI3]
  rcases idStep_cases typePluginInstance Identifier.pluginInstance (fun i s => { i with pluginInstance := s }) vl.id b
      (fun h => by rw [h]) with h | h <;> rw [h]
  · exact Or.inl ⟨_, rfl⟩
  · simp only [wbind_ok]
    rcases writeTailI4_cases { b with
        buffer := b.buffer ++ (if vl.id.pluginInstance = b.state.id.pluginInstance then []
          else stringPart typePluginInstance vl.id.pluginInstance),
        state := { b.state with id := { b.state.id with pluginInstance := vl.id.pluginInstance } } } vl
      with ⟨b', h2⟩ | ⟨hfit, b', h2⟩
    · exact Or.inl ⟨b', h2⟩
    · refine Or.inr ⟨?_, ?_⟩
      · simp only [List.length_append] at hfit
        push_cast at hfit ⊢
        omega
      · rcases h2 with h2 | h2
        · exact ⟨b', Or.inl h2⟩
        · exact ⟨b', Or.inr h2⟩

theorem writeTailI2_cases (b : Buffer) (vl : ValueList) :
    (∃ b', writeTailI2 vl b = .err .notEnoughSpace b') ∨
    ((b.buffer.length : Int) +
        ((if vl.id.plugin = b.state.id.plugin then ([] : List Nat)
          else stringPart typePlugin vl.id.plugin).length +
        ((if vl.id.pluginInstance = b.state.id.pluginInstance then ([] : List Nat)
          else stringPart typePluginInstance vl.id.pluginInstance).length +
        ((if vl.id.type_ = b.state.id.type_ then ([] : List Nat)
          else stringPart typeType vl.id.type_).length +
        ((if vl.id.typeInstance = b.state.id.typeInstance then ([] : List Nat)
          else stringPart typeTypeInstance vl.id.typeInstance).length +
        ((if b.state.time = vl.time then ([] : List Nat)
          else intPart typeTimeHR (Cdtime vl.time)).length +
        ((if b.state.interval = vl.interval then ([] : List Nat)
          else intPart typeIntervalHR (CdtimeDuration vl.interval)).length +
        ((valuesPart vl.values).length)))))) : Nat) ≤ b.size ∧
      ∃ b', writeTailI2 vl b = .ok b' ∨ writeTailI2 vl b = .panicked b') := by
  rw [writeTailI2]
  rcases idStep_cases typePlugin Identifier.plugin (fun i s => { i with plugin := s }) vl.id b
      (fun h => by rw [h]) with h | h <;> rw [h]
  · exact Or.inl ⟨_, rfl⟩
  · simp only [wbind_ok]
    rcases writeTailI3_cases { b with
        buffer := b.buffer ++ (if vl.id.plugin = b.state.id.plugin then []
          else stringPart typePlugin vl.id.plugin),
        state := { b.state with id := { b.state.id with plugin := vl.id.plugin } } } vl
      with ⟨b', h2⟩ | ⟨hfit, b', h2⟩
    · exact Or.inl ⟨b', h2⟩
    · refine Or.inr ⟨?_, ?_⟩
      · simp only [List.length_append] at hfit
        push_cast at hfit ⊢
        omega
      · rcases h2 with h2 | h2
        · exact ⟨b', Or.inl h2⟩
        · exact ⟨b', Or.inr h2⟩

theorem writeTailI1_cases (b : Buffer) (vl : ValueList) :
    (∃ b', writeTailI1 vl b = .err .notEnoughSpace b') ∨
    ((b.buffer.length : Int) +
        ((if vl.id.host = b.state.id.host then ([] : List Nat)
          else stringPart typeHost vl.id.host).length +
        ((if vl.id.plugin = b.state.id.plugin then ([] : List Nat)
          else stringPart typePlugin vl.id.plugin).length +
        ((if vl.id.pluginInstance = b.state.id.pluginInstance then ([] : List Nat)
          else stringPart typePluginInstance vl.id.pluginInstance).length +
        ((if vl.id.type_ = b.state.id.type_ then ([] : List Nat)
          else stringPart typeType vl.id.type_).length +
        ((if vl.id.typeInstance = b.state.id.typeInstance then ([] : List Nat)
          else stringPart typeTypeInstance vl.id.typeInstance).length +
        ((if b.state.time = vl.time then ([] : List Nat)
          else intPart typeTimeHR (Cdtime vl.time)).length +
        ((if b.state.interval = vl.interval then ([] : List Nat)
          else intPart typeIntervalHR (CdtimeDuration vl.interval)).length +
        ((valuesPart vl.values).length))))))) : Nat) ≤ b.size ∧
      ∃ b', writeTailI1 vl b = .ok b' ∨ writeTailI1 vl b = .panicked b') := by
  rw [writeTailI1]
  rcases idStep_cases typeHost Identifier.host (fun i s => { i with host := s }) vl.id b
      (fun h => by rw [h]) with h | h <;> rw [h]
  · exact Or.inl ⟨_, rfl⟩
  · simp only [wbind_ok]
    rcases writeTailI2_cases { b with
        buffer := b.buffer ++ (if vl.id.host = b.state.id.host then []
          else stringPart typeHost vl.id.host),
        state := { b.state with id := { b.state.id with host := vl.id.host } } } vl
      with ⟨b', h2⟩ | ⟨hfit, b', h2⟩
    · exact Or.inl ⟨b', h2⟩
    · refine Or.inr ⟨?_, ?_⟩
      · simp only [List.length_append] at hfit
        push_cast at hfit ⊢
        omega
      · rcases h2 with h2 | h2
        · exact ⟨b', Or.inl h2⟩
        · exact ⟨b', Or.inr h2⟩

theorem writeValueList_eq_tail (b : Buffer) (vl : ValueList) :
    writeValueList b vl = writeTailI1 vl b := by
  simp only [writeValueList, writeIdentifier, writeTailI1, writeTailI2, writeTailI3,
    writeTailI4, writeTailI5, writeTail1, writeTail2, wbind_assoc]

theorem writeValueList_cases (b : Buffer) (vl : ValueList) :
    (∃ b', writeValueList b vl = .err .notEnoughSpace b') ∨
    ((b.buffer.length : Int) + ((encBytes b.state vl).length : Int) ≤ b.size ∧
      ∃ b', writeValueList b vl = .ok b' ∨ writeValueList b vl = .panicked b') := by
  rw [writeValueList_eq_tail]
  rcases writeTailI1_cases b vl with h | ⟨hfit, b', h⟩
  · exact Or.inl h
  · refine Or.inr ⟨?_, b', h⟩
    have hsum : (encBytes b.state vl).length =
        (if vl.id.host = b.state.id.host then ([] : List Nat)
          else stringPart typeHost vl.id.host).length +
        ((if vl.id.plugin = b.state.id.plugin then ([] : List Nat)
          else stringPart typePlugin vl.id.plugin).length +
        ((if vl.id.pluginInstance = b.state.id.pluginInstance then ([] : List Nat)
          else stringPart typePluginInstance vl.id.pluginInstance).length +
        ((if vl.id.type_ = b.state.id.type_ then ([] : List Nat)
          else stringPart typeType vl.id.type_).length +
        ((if vl.id.typeInstance = b.state.id.typeInstance then ([] : List Nat)
          else stringPart typeTypeInstance vl.id.typeInstance).length +
        ((if b.state.time = vl.time then ([] : List Nat)
          else intPart typeTimeHR (Cdtime vl.time)).length +
        ((if b.state.interval = vl.interval then ([] : List Nat)
          else intPart typeIntervalHR (CdtimeDuration vl.interval)).length +
        (valuesPart vl.values).length)))))) := by
      simp [encBytes, idBytes]
    push_cast at hfit ⊢
    omega

theorem writeValuesTags_counter (values : List Value) (hc : noCounter values = false) :
    ∀ buf, ∃ ext, writeValuesTags buf values = .error (buf ++ ext) := by
  induction values with
  | nil => simp [noCounter] at hc
  | cons v vs ih =>
    intro buf
    cases v with
    | gauge bits =>
      simp only [noCounter, List.all_cons, Bool.and_eq_false_iff] at hc
      rcases hc with hc | hc
      · simp at hc
      · rcases ih hc (buf ++ [dsTypeGauge]) with ⟨ext, h⟩
        exact ⟨[dsTypeGauge] ++ ext, by simpa [writeValuesTags, List.append_assoc] using h⟩
    | derive v =>
      simp only [noCounter, List.all_cons, Bool.and_eq_false_iff] at hc
      rcases hc with hc | hc
      · simp at hc
      · rcases ih hc (buf ++ [dsTypeDerive]) with ⟨ext, h⟩
        exact ⟨[dsTypeDerive] ++ ext, by simpa [writeValuesTags, List.append_assoc] using h⟩
    | counter v => exact ⟨[], by simp [writeValuesTags]⟩

theorem writeValues_panic (b : Buffer) (values : List Value)
    (hc : noCounter values = false)
    (hfit : (b.buffer.length : Int) + ((valuesPart values).length : Int) ≤ b.size) :
    ∃ bp, writeValues b values = .panicked bp ∧
      b.buffer.length + 6 ≤ bp.buffer.length := by
  rw [valuesPart_len] at hfit
  have hfree : ((6 + 9 * values.length : Nat) : Int) ≤ free b :=
    (le_free_iff b _ (by positivity)).mpr hfit
  rcases writeValuesTags_counter values hc
      (b.buffer ++ be16 typeValues ++ be16 (6 + 9 * values.length) ++ be16 values.length)
    with ⟨ext, h⟩
  refine ⟨{ b with
      buffer := b.buffer ++ be16 typeValues ++ be16 (6 + 9 * values.length) ++
        be16 values.length ++ ext }, ?_, ?_⟩
  · rw [writeValues]
    dsimp only
    rw [if_neg (not_lt.mpr hfree), h]
  · simp only [List.length_append, be16, List.length_cons, List.length_nil]
    omega

theorem writeValueList_panic (b : Buffer) (vl : ValueList)
    (hc : noCounter vl.values = false)
    (hfit : (b.buffer.length : Int) + ((encBytes b.state vl).length : Int) ≤ b.size) :
    ∃ bp, writeValueList b vl = .panicked bp ∧ 6 ≤ bp.buffer.length := by
  have hsum : (encBytes b.state vl).length =
      (idBytes b.state.id vl.id).length +
      ((if b.state.time = vl.time then ([] : List Nat)
        else intPart typeTimeHR (Cdtime vl.time)).length +
      ((if b.state.interval = vl.interval then ([] : List Nat)
        else intPart typeIntervalHR (CdtimeDuration vl.interval)).length +
      (valuesPart vl.values).length)) := by
    simp [encBytes]
  rw [writeValueList,
    writeIdentifier_ok b vl.id (by push_cast at hfit ⊢; omega), wbind_ok]
  rw [writeTime_eq _ vl.time
      (by simp only [List.length_append]; push_cast at hfit ⊢; omega), wbind_ok]
  rw [writeInterval_eq _ vl.interval
      (by simp only [List.length_append]; push_cast at hfit ⊢; omega), wbind_ok]
  rcases writeValues_panic { b with
      buffer := b.buffer ++ idBytes b.state.id vl.id ++
        (if b.state.time = vl.time then [] else intPart typeTimeHR (Cdtime vl.time)) ++
        (if b.state.interval = vl.interval then []
          else intPart typeIntervalHR (CdtimeDuration vl.interval)),
      state := { b.state with id := vl.id, time := vl.time, interval := vl.interval } }
      vl.values hc
      (by simp only [List.length_append]; push_cast at hfit ⊢; omega) with ⟨bp, hp, hlen⟩
  refine ⟨bp, ?_, by simp only [List.length_append] at hlen; omega⟩
  exact hp

theorem WriteValueList_of_err (b : Buffer) (vl : ValueList) (iv : List Nat)
    (hb : b.buffer = []) (e : WErr) (b1 : Buffer)
    (h : writeValueList b vl = .err e b1) : WriteValueList b vl iv = .err e b1 := by
  unfold WriteValueList
  rw [h]
  simp [hb]

theorem WriteValueList_of_panic (b : Buffer) (vl : ValueList) (iv : List Nat)
    (b1 : Buffer) (h : writeValueList b vl = .panicked b1) :
    WriteValueList b vl iv = .panicked b1 := by
  unfold WriteValueList
  rw [h]

theorem WriteValueList_of_ok (b : Buffer) (vl : ValueList) (iv : List Nat)
    (b1 : Buffer) (h : writeValueList b vl = .ok b1) :
    WriteValueList b vl iv = .ok b1 := by
  unfold WriteValueList
  rw [h]

/-! ## Claims C2, C7, C10 -/

/-- A value list whose serialized size from the zero state is 1497 bytes,
exceeding the 1452-byte budget: small identifier, 161 derive values. -/
def vlC2 : ValueList :=
  { id := ⟨[104], [112], [], [116], []⟩, time := ⟨false, 1000000000⟩,
    interval := 10000000000, values := List.replicate 161 (.derive 0) }

/-- C2, counterexample: the claim states that for a single value list whose
serialized size exceeds the budget, `WriteValueList` on an empty buffer
returns an error *and* leaves the buffer empty *and* the shadow state
unchanged.  At `vlC2` (serialized size 1497 > 1452) the call does return an
error, but the identifier, time and interval parts written before the failed
values append remain in the buffer (42 bytes) and the shadow state is
changed: the Go code skips the truncation when the old length was zero. -/
theorem claim_C2_counterexample :
    (1452 : Int) < ((encBytes zeroValueList vlC2).length : Int) ∧
    ¬ ((WriteValueList NewBuffer vlC2 []).isErr = true ∧
       (WriteValueList NewBuffer vlC2 []).buf.buffer = [] ∧
       (WriteValueList NewBuffer vlC2 []).buf.state = zeroValueList) := by
  refine ⟨by decide, ?_⟩
  intro ⟨_, hbuf, _⟩
  revert hbuf
  decide

/-- C2, amended: for every value list whose serialized size from the zero
shadow state exceeds the 1452-byte budget, `WriteValueList` applied to a
fresh buffer returns an error (surfaced directly, without flushing: the
output stays empty); the partially appended parts may remain in the buffer
and shadow state. -/
theorem claim_C2_amended (vl : ValueList) (iv : List Nat)
    (hbig : (1452 : Int) < ((encBytes zeroValueList vl).length : Int)) :
    ∃ e b', WriteValueList NewBuffer vl iv = .err e b' ∧ b'.output = [] := by
  rcases writeValueList_cases NewBuffer vl with ⟨b', h⟩ | ⟨hfit, b', h⟩
  · have hcfg := sameCfg_writeValueList NewBuffer vl
    rw [h] at hcfg
    exact ⟨.notEnoughSpace, b', WriteValueList_of_err NewBuffer vl iv rfl _ _ h,
      hcfg.2.2.2.2⟩
  · exfalso
    have h0 : NewBuffer.buffer.length = 0 := rfl
    have hs : NewBuffer.size = (1452 : Int) := rfl
    have hz : NewBuffer.state = zeroValueList := rfl
    rw [h0, hs, hz] at hfit
    omega

/-- C2, witness for the amended theorem at `vlC2`. -/
theorem claim_C2_witness :
    (1452 : Int) < ((encBytes zeroValueList vlC2).length : Int) ∧
    ∃ e b', WriteValueList NewBuffer vlC2 [] = .err e b' ∧ b'.output = [] :=
  ⟨by decide, claim_C2_amended vlC2 [] (by decide)⟩

/-- A value list containing a `Counter` value, which the encoder does not
support. -/
def vlC7 : ValueList :=
  { id := ⟨[104], [112], [], [116], []⟩, time := ⟨false, 1000000000⟩,
    interval := 10000000000, values := [.counter 1] }

/-- C7, counterexample: the claim states that `WriteValueList` on a value
list with an unsupported variant (`Counter`) terminates normally with an
error return and leaves buffer and shadow state unchanged.  At `vlC7` the
call panics (`panic("unexpected type")` in `writeValues`), and the bytes
appended before the panic remain in the buffer. -/
theorem claim_C7_counterexample :
    ¬ ((WriteValueList NewBuffer vlC7 []).isErr = true ∧
       (WriteValueList NewBuffer vlC7 []).buf.buffer = [] ∧
       (WriteValueList NewBuffer vlC7 []).buf.state = zeroValueList) := by
  intro ⟨herr, _, _⟩
  revert herr
  decide

/-- C7, amended: for every value list containing a value that is neither
`Gauge` nor `Derive` and whose serialized size fits the budget (so the
encoder reaches the values part), `WriteValueList` on a fresh buffer
panics, and the bytes appended before the panic (at least the values part
header) remain in the buffer. -/
theorem claim_C7_amended (vl : ValueList) (iv : List Nat)
    (hc : noCounter vl.values = false)
    (hfit : ((encBytes zeroValueList vl).length : Int) ≤ 1452) :
    ∃ b', WriteValueList NewBuffer vl iv = .panicked b' ∧ b'.buffer ≠ [] := by
  have hz : NewBuffer.state = zeroValueList := rfl
  rcases writeValueList_panic NewBuffer vl hc
      (by
        rw [hz]
        have h0 : NewBuffer.buffer.length = 0 := rfl
        have hs : NewBuffer.size = (1452 : Int) := rfl
        rw [h0, hs]
        omega) with ⟨bp, hp, hlen⟩
  refine ⟨bp, WriteValueList_of_panic NewBuffer vl iv bp hp, ?_⟩
  intro hnil
  rw [hnil] at hlen
  simp at hlen

/-- C7, witness for the amended theorem at `vlC7`. -/
theorem claim_C7_witness :
    noCounter vlC7.values = false ∧
    ((encBytes zeroValueList vlC7).length : Int) ≤ 1452 ∧
    ∃ b', WriteValueList NewBuffer vlC7 [] = .panicked b' ∧ b'.buffer ≠ [] :=
  ⟨by decide, by decide, claim_C7_amended vlC7 [] (by decide) (by decide)⟩

/-- C10: the claim states that `Parse` never panics on any input datagram.
The code contradicts its own fuzz harness and documentation: on the
one-byte datagram `[0x00]` (and any datagram whose length is 1, 2 or 3
modulo part consumption) `binary.BigEndian.Uint16` is applied to a slice
shorter than two bytes and panics with an index-out-of-range. -/
theorem claim_C10_panic : Parse [0] = .panicked := by decide

/-! ## Claim C6: the values-part count check -/

theorem parseValuesLoop_short (types buf : List Nat)
    (h : buf.length < 8 * types.length) :
    ∃ e, parseValuesLoop types buf = .error e := by
  induction types generalizing buf with
  | nil => simp at h
  | cons t ts ih =>
    rw [parseValuesLoop]
    by_cases h1 : t = dsTypeGauge
    · rw [if_pos h1]
      by_cases h2 : buf.length < 8
      · exact ⟨_, by rw [if_pos h2]⟩
      · rw [if_neg h2]
        rcases ih (buf.drop 8) (by simp at h ⊢; omega) with ⟨e, he⟩
        exact ⟨e, by rw [he]; rfl⟩
    · rw [if_neg h1]
      by_cases h1' : t = dsTypeDerive ∨ t = dsTypeCounter
      · rw [if_pos h1']
        by_cases h2 : buf.length < 8
        · exact ⟨_, by rw [if_pos h2]⟩
        · rw [if_neg h2]
          rcases ih (buf.drop 8) (by simp at h ⊢; omega) with ⟨e, he⟩
          exact ⟨e, by rw [he]; rfl⟩
      · rw [if_neg h1']
        by_cases h3 : t = dsTypeAbsolute
        · exact ⟨_, by rw [if_pos h3]⟩
        · exact ⟨_, by rw [if_neg h3]⟩

theorem parseValuesLoop_ok_len (types buf : List Nat) (vs : List Value)
    (h : parseValuesLoop types buf = .ok vs) :
    vs.length = types.length ∧ 8 * types.length ≤ buf.length := by
  induction types generalizing buf vs with
  | nil =>
    rw [parseValuesLoop] at h
    injection h with h
    subst h
    simp
  | cons t ts ih =>
    rw [parseValuesLoop] at h
    by_cases h1 : t = dsTypeGauge
    · rw [if_pos h1] at h
      by_cases h2 : buf.length < 8
      · rw [if_pos h2] at h
        exact absurd h (by simp)
      · rw [if_neg h2] at h
        cases hrec : parseValuesLoop ts (buf.drop 8) with
        | error e =>
          rw [hrec] at h
          exact absurd h (by intro hc; exact Except.noConfusion hc)
        | ok rest =>
          rw [hrec] at h
          have hv : Value.gauge (leToNat (buf.take 8)) :: rest = vs :=
            Except.ok.inj h
          have hlen := ih (buf.drop 8) rest hrec
          rw [← hv]
          simp only [List.length_cons, List.length_drop] at hlen ⊢
          omega
    · rw [if_neg h1] at h
      by_cases h1' : t = dsTypeDerive ∨ t = dsTypeCounter
      · rw [if_pos h1'] at h
        by_cases h2 : buf.length < 8
        · rw [if_pos h2] at h
          exact absurd h (by simp)
        · rw [if_neg h2] at h
          cases hrec : parseValuesLoop ts (buf.drop 8) with
          | error e =>
            rw [hrec] at h
            exact absurd h (by intro hc; exact Except.noConfusion hc)
          | ok rest =>
            rw [hrec] at h
            have hv : Value.derive (uint64ToInt64 (beToNat (buf.take 8))) :: rest = vs :=
              Except.ok.inj h
            have hlen := ih (buf.drop 8) rest hrec
            rw [← hv]
            simp only [List.length_cons, List.length_drop] at hlen ⊢
            omega
      · rw [if_neg h1'] at h
        by_cases h3 : t = dsTypeAbsolute
        · rw [if_pos h3] at h
          exact absurd h (by simp)
        · rw [if_neg h3] at h
          exact absurd h (by simp)

theorem beToNat_take2_lt (b : List Nat) (hok : BytesOk b) (hlen : 2 ≤ b.length) :
    beToNat (b.take 2) < 65536 := by
  match b, hlen with
  | x :: y :: rest, _ =>
    have hx : x < 256 := hok x (by simp)
    have hy : y < 256 := hok y (by simp)
    simp only [List.take, beToNat, List.foldl]
    omega

/-- C6: a Values part whose declared two-byte count `n` does not satisfy
`6 + 9·n = 4 + payload length` (the part's total length) is rejected by
`parseValues`: even though the Go check computes `n*9` in overflowing
uint16 arithmetic, any mismatch that slips past the wrapped check leaves
the cell reads short of bytes and still errors; conversely every
successfully parsed value list has exactly the declared, length-consistent
number of values, so no value list with a wrong number of values is ever
produced. -/
theorem claim_C6 :
    (∀ b : List Nat, BytesOk b → 2 ≤ b.length →
      6 + 9 * beToNat (b.take 2) ≠ 4 + b.length → ∃ e, parseValues b = .error e) ∧
    (∀ (b : List Nat) (vs : List Value), BytesOk b → parseValues b = .ok vs →
      6 + 9 * vs.length = 4 + b.length) := by
  constructor
  · intro b hok hlen hmis
    rw [parseValues]
    rw [if_neg (by omega)]
    have hn := beToNat_take2_lt b hok hlen
    set n := beToNat (b.take 2) with hdefn
    have hL : (b.drop 2).length = b.length - 2 := by simp
    by_cases hchk : (n * 9) % 65536 ≠ (b.drop 2).length
    · exact ⟨_, by rw [if_pos hchk]⟩
    · push_neg at hchk
      rw [if_neg (by omega)]
      have hge : (b.drop 2).length + 65536 ≤ n * 9 := by
        have h1 : n * 9 % 65536 ≤ n * 9 := Nat.mod_le _ _
        have h2 : n * 9 ≠ (b.drop 2).length := by omega
        have h3 := Nat.div_add_mod (n * 9) 65536
        rcases Nat.eq_zero_or_pos (n * 9 / 65536) with h4 | h4
        · omega
        · have h5 := Nat.mul_le_mul_right 65536 h4
          omega
      rw [if_neg (by omega)]
      apply parseValuesLoop_short
      have ht : (((b.drop 2).take n) ++
          List.replicate (n - min n (b.drop 2).length) 0).length = n := by
        simp
      rw [ht]
      simp only [List.length_drop]
      omega
  · intro b vs hok hOK
    rw [parseValues] at hOK
    by_cases hlen : b.length < 2
    · rw [if_pos hlen] at hOK
      exact absurd hOK (by simp)
    · rw [if_neg hlen] at hOK
      by_cases hchk : (beToNat (b.take 2) * 9) % 65536 ≠ (b.drop 2).length
      · rw [if_pos hchk] at hOK
        exact absurd hOK (by simp)
      · push_neg at hchk
        rw [if_neg (by omega)] at hOK
        by_cases hz : (b.drop 2).length = 0 ∧ 0 < beToNat (b.take 2)
        · rw [if_pos hz] at hOK
          exact absurd hOK (by simp)
        · rw [if_neg hz] at hOK
          have hn := beToNat_take2_lt b hok (by omega)
          set n := beToNat (b.take 2) with hdefn
          obtain ⟨hvslen, havail⟩ := parseValuesLoop_ok_len _ _ _ hOK
          have ht : (((b.drop 2).take n) ++
              List.replicate (n - min n (b.drop 2).length) 0).length = n := by
            simp
          rw [ht] at hvslen havail
          have hd : ((b.drop 2).drop n).length = (b.drop 2).length - n := by
            simp
            omega
          have hL : (b.drop 2).length = b.length - 2 := by simp
          rw [hd] at havail
          have hexact : n * 9 = (b.drop 2).length := by
            have h3 := Nat.div_add_mod (n * 9) 65536
            rcases Nat.eq_zero_or_pos (n * 9 / 65536) with h4 | h4
            · omega
            · have h5 := Nat.mul_le_mul_right 65536 h4
              omega
          omega

/-- C6, witness: a Values payload declaring one value over ten payload
bytes (`6 + 9·1 = 15 ≠ 16`) is rejected. -/
theorem claim_C6_witness :
    (BytesOk [0, 1, 0, 0, 0, 0, 0, 0, 0, 0, 0, 0] ∧
      2 ≤ ([0, 1, 0, 0, 0, 0, 0, 0, 0, 0, 0, 0] : List Nat).length ∧
      6 + 9 * beToNat (([0, 1, 0, 0, 0, 0, 0, 0, 0, 0, 0, 0] : List Nat).take 2) ≠
        4 + ([0, 1, 0, 0, 0, 0, 0, 0, 0, 0, 0, 0] : List Nat).length) ∧
    ∃ e, parseValues [0, 1, 0, 0, 0, 0, 0, 0, 0, 0, 0, 0] = .error e :=
  ⟨⟨by decide, by decide, by decide⟩,
    claim_C6.1 [0, 1, 0, 0, 0, 0, 0, 0, 0, 0, 0, 0] (by decide) (by decide) (by decide)⟩

/-! ## Parse step lemmas: one well-formed part at the head of the input -/

theorem parseString_concat (s : List Nat) : parseString (s ++ [0]) = .ok s := by
  rw [parseString]
  simp

theorem parseInt_be64 (n : Nat) (h : n < 2 ^ 64) : parseInt (be64 n) = .ok n := by
  rw [parseInt, if_pos (be64_len n), beToNat_be64 n h]

theorem beToNat_pair (x y : Nat) : beToNat [x, y] = x * 256 + y := by
  simp [beToNat, List.foldl]

theorem stringPart_cons (typ : Nat) (s rest : List Nat) :
    stringPart typ s ++ rest = (typ % 65536 / 256) :: (typ % 256) ::
      ((4 + s.length + 1) % 65536 / 256) :: ((4 + s.length + 1) % 256) ::
      (s ++ [0] ++ rest) := by
  simp [stringPart, be16, List.append_assoc]

theorem intPart_cons (typ n : Nat) (rest : List Nat) :
    intPart typ n ++ rest = (typ % 65536 / 256) :: (typ % 256) ::
      (12 % 65536 / 256) :: (12 % 256) :: (be64 n ++ rest) := by
  simp [intPart, be16, List.append_assoc]

theorem parseGo_string_step (f typ : Nat) (s rest : List Nat) (st : ValueList)
    (acc : List ValueList)
    (htyp : typ = typeHost ∨ typ = typePlugin ∨ typ = typePluginInstance ∨
      typ = typeType ∨ typ = typeTypeInstance)
    (hs : s.length + 5 < 65536) :
    parseGo (f + 1) (stringPart typ s ++ rest) st acc =
      parseGo f rest (setStringField st typ s) acc := by
  have htlt : typ < 65536 := by
    rcases htyp with h | h | h | h | h <;> subst h <;> decide
  rw [stringPart_cons]
  simp only [parseGo]
  have e1 : List.take 2 ((typ % 65536 / 256) :: (typ % 256) ::
      ((4 + s.length + 1) % 65536 / 256) :: ((4 + s.length + 1) % 256) ::
      (s ++ [0] ++ rest)) = [typ % 65536 / 256, typ % 256] := rfl
  have e2 : List.drop 2 ((typ % 65536 / 256) :: (typ % 256) ::
      ((4 + s.length + 1) % 65536 / 256) :: ((4 + s.length + 1) % 256) ::
      (s ++ [0] ++ rest)) = ((4 + s.length + 1) % 65536 / 256) ::
      ((4 + s.length + 1) % 256) :: (s ++ [0] ++ rest) := rfl
  have e3 : List.take 2 (((4 + s.length + 1) % 65536 / 256) ::
      ((4 + s.length + 1) % 256) :: (s ++ [0] ++ rest)) =
      [(4 + s.length + 1) % 65536 / 256, (4 + s.length + 1) % 256] := rfl
  have e4 : List.drop 4 ((typ % 65536 / 256) :: (typ % 256) ::
      ((4 + s.length + 1) % 65536 / 256) :: ((4 + s.length + 1) % 256) ::
      (s ++ [0] ++ rest)) = s ++ [0] ++ rest := rfl
  have ePT : beToNat [typ % 65536 / 256, typ % 256] = typ := by
    rw [beToNat_pair]
    omega
  have ePL : beToNat [(4 + s.length + 1) % 65536 / 256, (4 + s.length + 1) % 256] =
      4 + s.length + 1 := by
    rw [beToNat_pair]
    omega
  simp only [e1, e2, e3, e4, ePT, ePL]
  rw [if_neg (by simp)]
  rw [if_neg (by simp; omega)]
  rw [if_pos htyp]
  have epay : List.take (4 + s.length + 1 - 4) (s ++ [0] ++ rest) = s ++ [0] := by
    apply List.take_left'
    simp
    omega
  have erem : List.drop (4 + s.length + 1 - 4) (s ++ [0] ++ rest) = rest := by
    apply List.drop_left'
    simp
    omega
  rw [epay, erem, parseString_concat]

theorem parseGo_int_step (f typ n : Nat) (rest : List Nat) (st : ValueList)
    (acc : List ValueList)
    (htyp : typ = typeInterval ∨ typ = typeIntervalHR ∨ typ = typeTime ∨ typ = typeTimeHR)
    (hn : n < 2 ^ 64) :
    parseGo (f + 1) (intPart typ n ++ rest) st acc =
      parseGo f rest (setIntField st typ n) acc := by
  have htlt : typ < 65536 := by
    rcases htyp with h | h | h | h <;> subst h <;> decide
  have hnstr : ¬ (typ = typeHost ∨ typ = typePlugin ∨ typ = typePluginInstance ∨
      typ = typeType ∨ typ = typeTypeInstance) := by
    rcases htyp with h | h | h | h <;> subst h <;> decide
  rw [intPart_cons]
  simp only [parseGo]
  have e1 : List.take 2 ((typ % 65536 / 256) :: (typ % 256) ::
      (12 % 65536 / 256) :: (12 % 256) :: (be64 n ++ rest)) =
      [typ % 65536 / 256, typ % 256] := rfl
  have e2 : List.drop 2 ((typ % 65536 / 256) :: (typ % 256) ::
      (12 % 65536 / 256) :: (12 % 256) :: (be64 n ++ rest)) =
      (12 % 65536 / 256) :: (12 % 256) :: (be64 n ++ rest) := rfl
  have e3 : List.take 2 ((12 % 65536 / 256) :: (12 % 256) :: (be64 n ++ rest)) =
      [12 % 65536 / 256, 12 % 256] := rfl
  have e4 : List.drop 4 ((typ % 65536 / 256) :: (typ % 256) ::
      (12 % 65536 / 256) :: (12 % 256) :: (be64 n ++ rest)) = be64 n ++ rest := rfl
  have ePT : beToNat [typ % 65536 / 256, typ % 256] = typ := by
    rw [beToNat_pair]
    omega
  have ePL : beToNat [12 % 65536 / 256, 12 % 256] = 12 := by decide
  simp only [e1, e2, e3, e4, ePT, ePL]
  rw [if_neg (by simp [be64])]
  rw [if_neg (by simp [be64])]
  rw [if_neg hnstr]
  rw [if_pos htyp]
  have epay : List.take (12 - 4) (be64 n ++ rest) = be64 n := by
    apply List.take_left'
    rw [be64_len]
  have erem : List.drop (12 - 4) (be64 n ++ rest) = rest := by
    apply List.drop_left'
    rw [be64_len]
  rw [epay, erem, parseInt_be64 n hn]

theorem parseGo_values_step (f : Nat) (payload rest : List Nat) (st : ValueList)
    (acc : List ValueList) (vs : List Value)
    (hp : parseValues payload = .ok vs) (hlen : payload.length + 4 < 65536)
    (hlen1 : 1 ≤ payload.length) :
    parseGo (f + 1) (be16 typeValues ++ be16 (4 + payload.length) ++ payload ++ rest)
        st acc =
      parseGo f rest st (acc ++ [{ st with values := vs }]) := by
  have hcons : be16 typeValues ++ be16 (4 + payload.length) ++ payload ++ rest =
      (typeValues % 65536 / 256) :: (typeValues % 256) ::
      ((4 + payload.length) % 65536 / 256) :: ((4 + payload.length) % 256) ::
      (payload ++ rest) := by
    simp [be16, List.append_assoc]
  rw [hcons]
  simp only [parseGo]
  have e1 : List.take 2 ((typeValues % 65536 / 256) :: (typeValues % 256) ::
      ((4 + payload.length) % 65536 / 256) :: ((4 + payload.length) % 256) ::
      (payload ++ rest)) = [typeValues % 65536 / 256, typeValues % 256] := rfl
  have e2 : List.drop 2 ((typeValues % 65536 / 256) :: (typeValues % 256) ::
      ((4 + payload.length) % 65536 / 256) :: ((4 + payload.length) % 256) ::
      (payload ++ rest)) = ((4 + payload.length) % 65536 / 256) ::
      ((4 + payload.length) % 256) :: (payload ++ rest) := rfl
  have e3 : List.take 2 (((4 + payload.length) % 65536 / 256) ::
      ((4 + payload.length) % 256) :: (payload ++ rest)) =
      [(4 + payload.length) % 65536 / 256, (4 + payload.length) % 256] := rfl
  have e4 : List.drop 4 ((typeValues % 65536 / 256) :: (typeValues % 256) ::
      ((4 + payload.length) % 65536 / 256) :: ((4 + payload.length) % 256) ::
      (payload ++ rest)) = payload ++ rest := rfl
  have ePT : beToNat [typeValues % 65536 / 256, typeValues % 256] = typeValues := by
    decide
  have ePL : beToNat [(4 + payload.length) % 65536 / 256, (4 + payload.length) % 256] =
      4 + payload.length := by
    rw [beToNat_pair]
    omega
  simp only [e1, e2, e3, e4, ePT, ePL]
  rw [if_neg (by simp)]
  rw [if_neg (by simp; omega)]
  rw [if_neg (by decide)]
  rw [if_neg (by decide)]
  rw [if_pos trivial]
  have epay : List.take (4 + payload.length - 4) (payload ++ rest) = payload := by
    apply List.take_left'
    omega
  have erem : List.drop (4 + payload.length - 4) (payload ++ rest) = rest := by
    apply List.drop_left'
    omega
  rw [epay, erem, hp]

theorem parseGo_nil (f : Nat) (st : ValueList) (acc : List ValueList) :
    parseGo f [] st acc = .res acc none := by
  cases f <;> rfl

theorem parseGo_valuesPart_step (f : Nat) (values : List Value) (rest : List Nat)
    (st : ValueList) (acc : List ValueList) (vs : List Value)
    (hp : parseValues (be16 values.length ++ tagsOf values ++ cellsOf values) = .ok vs)
    (hlen : 9 * values.length + 6 < 65536) :
    parseGo (f + 1) (valuesPart values ++ rest) st acc =
      parseGo f rest st (acc ++ [{ st with values := vs }]) := by
  have hplen : (be16 values.length ++ tagsOf values ++ cellsOf values).length =
      2 + 9 * values.length := by
    simp [be16, tagsOf_len, cellsOf_len]
    omega
  have hdec : valuesPart values = be16 typeValues ++
      be16 (4 + (be16 values.length ++ tagsOf values ++ cellsOf values).length) ++
      (be16 values.length ++ tagsOf values ++ cellsOf values) := by
    rw [hplen]
    have : 4 + (2 + 9 * values.length) = 6 + 9 * values.length := by omega
    rw [this, valuesPart]
    simp [List.append_assoc]
  rw [hdec, List.append_assoc, List.append_assoc, ← List.append_assoc,
    ← List.append_assoc]
  rw [parseGo_values_step f _ rest st acc vs hp (by rw [hplen]; omega)
    (by rw [hplen]; omega)]

/-! ## Claim C8: legacy Time vs TimeHR -/

instance {e a : Type} [DecidableEq e] [DecidableEq a] : DecidableEq (Except e a) :=
  fun x y =>
  match x, y with
  | .ok u, .ok v =>
    if h : u = v then isTrue (by rw [h]) else isFalse (fun hc => h (Except.ok.inj hc))
  | .error u, .error v =>
    if h : u = v then isTrue (by rw [h]) else isFalse (fun hc => h (Except.error.inj hc))
  | .ok _, .error _ => isFalse (fun hc => Except.noConfusion hc)
  | .error _, .ok _ => isFalse (fun hc => Except.noConfusion hc)

/-- The datagram tail used in the C8 theorems: one Values part holding a
single `Derive 0`. -/
def c8tail : List Nat := valuesPart [Value.derive 0]

/-- The value list the C8 datagrams parse to, as a function of the time. -/
def c8vl (t : GoTime) : ValueList :=
  { id := ⟨[], [], [], [], []⟩, time := t, interval := 0, values := [Value.derive 0] }

/-- C8, counterexample: with a TimeHR part (100 seconds in cdtime) followed
by a legacy Time part (200 seconds) before the same Values part, the
emitted value list carries the legacy time (200 s), not the TimeHR time:
the parser simply stores whichever time part it saw last. -/
theorem claim_C8_counterexample :
    ∃ vl, Parse (intPart typeTimeHR (100 * 2 ^ 30) ++ (intPart typeTime 200 ++ c8tail)) =
        .res [vl] none ∧
      vl.time ≠ cdtimeToTime (100 * 2 ^ 30) :=
  ⟨c8vl ⟨false, 200 * 1000000000⟩, by decide, by decide⟩

/-! ## C9: identifier round trip (api `Identifier.String` / `ParseIdentifier`) -/

/-- `func (id Identifier) String() string` (src/api/meta_test.go): the canonical
textual form `Host/Plugin[-PluginInstance]/Type[-TypeInstance]` over byte
lists, with `'/'` = 47 and `'-'` = 45; an instance suffix is emitted only when
the instance field is non-empty. -/
def IdentifierString (id : Identifier) : List Nat :=
  id.host ++ [47] ++
    (id.plugin ++ (if id.pluginInstance = [] then [] else 45 :: id.pluginInstance)) ++
  [47] ++
    (id.type_ ++ (if id.typeInstance = [] then [] else 45 :: id.typeInstance))

/-- The `if i := strings.Index(f, "-"); i != -1` block of `ParseIdentifier`:
split a field at its first `'-'` into name and instance; a field without `'-'`
keeps an empty instance. -/
def splitInstance (f : List Nat) : List Nat × List Nat :=
  match f.findIdx? (fun a => a == 45) with
  | some i => (f.take i, f.drop (i + 1))
  | none => (f, [])

/-- `func ParseIdentifier(s string) (Identifier, error)` (src/api/meta_test.go):
`strings.Split(s, "/")` must yield exactly three fields; the middle and last
fields are then split at their first `'-'`. -/
def ParseIdentifier (s : List Nat) : Except Unit Identifier :=
  match s.splitOn 47 with
  | [f0, f1, f2] =>
      .ok ⟨f0, (splitInstance f1).1, (splitInstance f1).2,
           (splitInstance f2).1, (splitInstance f2).2⟩
  | _ => .error ()

theorem findIdx45_none (l : List Nat) (h : 45 ∉ l) :
    l.findIdx? (fun a => a == 45) = none := by
  rw [List.findIdx?_eq_none_iff]
  intro x hx
  simp only [beq_eq_false_iff_ne]
  exact fun hx45 => h (hx45 ▸ hx)

theorem findIdx45_append_aux (l1 l2 : List Nat) (h : 45 ∉ l1) (i : Nat) :
    List.findIdx? (fun a => a == 45) (l1 ++ 45 :: l2) i = some (l1.length + i) := by
  induction l1 generalizing i with
  | nil => simp [List.findIdx?_cons]
  | cons a t ih =>
    rw [List.cons_append, List.findIdx?_cons]
    rw [if_neg (by
      simp only [beq_iff_eq]
      exact fun e => h (e ▸ List.mem_cons_self a t))]
    rw [ih (fun hm => h (List.mem_cons_of_mem a hm)) (i + 1)]
    congr 1
    simp only [List.length_cons]
    omega

theorem drop_append_cons (l1 l2 : List Nat) (x : Nat) :
    (l1 ++ x :: l2).drop (l1.length + 1) = l2 := by
  induction l1 with
  | nil => rfl
  | cons a t ih => simp

theorem splitInstance_chunk (pre inst : List Nat) (hpre : 45 ∉ pre) :
    splitInstance (pre ++ (if inst = [] then [] else 45 :: inst)) = (pre, inst) := by
  by_cases hi : inst = []
  · subst hi
    rw [if_pos rfl, List.append_nil]
    simp only [splitInstance, findIdx45_none pre hpre]
  · rw [if_neg hi]
    simp only [splitInstance]
    have := findIdx45_append_aux pre inst hpre 0
    rw [Nat.add_zero] at this
    simp only [this]
    rw [List.take_left, drop_append_cons]

theorem splitOn47_canonical (a b c : List Nat)
    (ha : 47 ∉ a) (hb : 47 ∉ b) (hc : 47 ∉ c) :
    (a ++ [47] ++ b ++ [47] ++ c).splitOn 47 = [a, b, c] := by
  have h := List.splitOn_intercalate [a, b, c] 47
    (by
      intro l hl
      rcases List.mem_cons.mp hl with rfl | hl
      · exact ha
      rcases List.mem_cons.mp hl with rfl | hl
      · exact hb
      rcases List.mem_cons.mp hl with rfl | hl
      · exact hc
      exact absurd hl (List.not_mem_nil l))
    (by simp)
  have hform : [47].intercalate [a, b, c] = a ++ [47] ++ b ++ [47] ++ c := by
    simp [List.intercalate, List.append_assoc]
  rw [hform] at h
  exact h

/-- **C9**: an Identifier whose five fields contain no `'/'`, whose plugin and
type fields contain no `'-'`, and whose host, plugin and type fields are
non-empty round-trips: `ParseIdentifier` applied to the canonical textual form
produced by `Identifier.String` returns exactly the original identifier,
including empty instance fields and instance fields that contain `'-'`. -/
theorem claim_C9 (id : Identifier)
    (h1 : 47 ∉ id.host) (h2 : 47 ∉ id.plugin) (h3 : 47 ∉ id.pluginInstance)
    (h4 : 47 ∉ id.type_) (h5 : 47 ∉ id.typeInstance)
    (h6 : 45 ∉ id.plugin) (h7 : 45 ∉ id.type_)
    (h8 : id.host ≠ []) (h9 : id.plugin ≠ []) (h10 : id.type_ ≠ []) :
    ParseIdentifier (IdentifierString id) = .ok id := by
  obtain ⟨host, plugin, pii, ty, tii⟩ := id
  simp only at h1 h2 h3 h4 h5 h6 h7 h8 h9 h10
  have hpc : 47 ∉ plugin ++ (if pii = [] then [] else 45 :: pii) := by
    intro hm
    rcases List.mem_append.mp hm with hm | hm
    · exact h2 hm
    · by_cases hp : pii = []
      · rw [if_pos hp] at hm; exact List.not_mem_nil _ hm
      · rw [if_neg hp] at hm
        rcases List.mem_cons.mp hm with e | hm
        · omega
        · exact h3 hm
  have htc : 47 ∉ ty ++ (if tii = [] then [] else 45 :: tii) := by
    intro hm
    rcases List.mem_append.mp hm with hm | hm
    · exact h4 hm
    · by_cases hp : tii = []
      · rw [if_pos hp] at hm; exact List.not_mem_nil _ hm
      · rw [if_neg hp] at hm
        rcases List.mem_cons.mp hm with e | hm
        · omega
        · exact h5 hm
  have hsplit : (IdentifierString ⟨host, plugin, pii, ty, tii⟩).splitOn 47 =
      [host, plugin ++ (if pii = [] then [] else 45 :: pii),
       ty ++ (if tii = [] then [] else 45 :: tii)] :=
    splitOn47_canonical _ _ _ h1 hpc htc
  simp only [ParseIdentifier, hsplit, splitInstance_chunk plugin pii h6,
    splitInstance_chunk ty tii h7]

/-- Concrete identifier for the C9 witness: host `h`, plugin `p`, plugin
instance `i-j` (contains a dash), type `t`, empty type instance. -/
def idC9 : Identifier := ⟨[104], [112], [105, 45, 106], [116], []⟩

/-- C9, witness: the concrete identifier `h/p-i-j/t` round-trips. -/
theorem claim_C9_witness :
    ParseIdentifier (IdentifierString idC9) = .ok idC9 :=
  claim_C9 idC9 (by decide) (by decide) (by decide) (by decide) (by decide)
    (by decide) (by decide) (by decide) (by decide) (by decide)

/-! ## C3: MTU bound on every produced datagram -/

/-! Length lemmas for the crypto envelopes. -/

theorem be32_len (x : Nat) : (be32 x).length = 4 := rfl

theorem sha256_length (m : List Nat) : (sha256 m).length = 32 := by
  unfold sha256
  simp [be32_len]

theorem sha1_length (m : List Nat) : (sha1 m).length = 20 := by
  unfold sha1
  simp [be32_len]

theorem hmacSHA256_length (key msg : List Nat) : (hmacSHA256 key msg).length = 32 := by
  unfold hmacSHA256
  exact sha256_length _

theorem signSHA256_length (payload username password : List Nat) :
    (signSHA256 payload username password).length =
      36 + username.length + payload.length := by
  unfold signSHA256
  simp [be16_len, hmacSHA256_length]
  omega

theorem aesEncryptBlock_len (key block : List Nat) :
    (aesEncryptBlock key block).length = 16 := by
  unfold aesEncryptBlock addRoundKey
  simp

theorem ofbKeystream_len (key : List Nat) (n : Nat) (prev : List Nat) :
    (ofbKeystream key n prev).length = 16 * n := by
  induction n generalizing prev with
  | zero => rfl
  | succ m ih =>
    unfold ofbKeystream
    simp [aesEncryptBlock_len, ih]
    ring

theorem encryptAES256_length (payload username password iv : List Nat)
    (hiv : iv.length = 16) :
    (encryptAES256 payload username password iv).length =
      42 + username.length + payload.length := by
  unfold encryptAES256
  simp [be16_len, strXor, ofbKeystream_len, sha1_length, hiv]
  omega

/-! Budget invariant. -/

def fitsB (b : Buffer) : Prop :=
  (b.buffer.length : Int) ≤ b.size ∨ b.buffer.length = 0

def sizeBound (b : Buffer) : Prop :=
  if b.username ≠ [] ∧ b.password ≠ [] then
    (if b.encrypt then b.size + (42 + (b.username.length : Int)) ≤ 1452
     else b.size + (36 + (b.username.length : Int)) ≤ 1452)
  else b.size ≤ 1452

def outputOk (b : Buffer) : Prop := ∀ d ∈ b.output, d.length ≤ 1452

def BufInv (b : Buffer) : Prop := fitsB b ∧ sizeBound b ∧ outputOk b

theorem fits_wbind {r : WRes} {f : Buffer → WRes}
    (hr : fitsB r.buf) (hf : ∀ b1, fitsB b1 → fitsB (f b1).buf) :
    fitsB (wbind r f).buf := by
  cases r with
  | ok b1 => exact hf b1 hr
  | err e b1 => exact hr
  | panicked b1 => exact hr

theorem fits_writeString (b : Buffer) (typ : Nat) (s : List Nat) (hb : fitsB b) :
    fitsB (writeString b typ s).buf := by
  unfold writeString
  dsimp only
  split
  · exact hb
  · rename_i h
    push_neg at h
    simp only [WRes.buf]
    unfold fitsB free at *
    simp only [List.length_append, be16_len, List.length_cons, List.length_nil]
    split at h <;> push_cast at * <;> omega

theorem fits_writeInt (b : Buffer) (typ n : Nat) (hb : fitsB b) :
    fitsB (writeInt b typ n).buf := by
  unfold writeInt
  split
  · exact hb
  · rename_i h
    push_neg at h
    simp only [WRes.buf]
    unfold fitsB free at *
    simp only [List.length_append, be16_len, be64_len]
    split at h <;> push_cast at * <;> omega

theorem fits_idStep (typ : Nat) (get : Identifier → List Nat)
    (set : Identifier → List Nat → Identifier) (id : Identifier) (b : Buffer)
    (hb : fitsB b) : fitsB (idStep typ get set id b).buf := by
  unfold idStep
  split
  · exact hb
  · exact fits_wbind (fits_writeString b typ (get id) hb) (fun b1 h1 => h1)

theorem fits_writeIdentifier (b : Buffer) (id : Identifier) (hb : fitsB b) :
    fitsB (writeIdentifier b id).buf := by
  unfold writeIdentifier
  refine fits_wbind (fits_idStep _ _ _ _ _ hb) (fun b1 h1 => ?_)
  refine fits_wbind (fits_idStep _ _ _ _ _ h1) (fun b2 h2 => ?_)
  refine fits_wbind (fits_idStep _ _ _ _ _ h2) (fun b3 h3 => ?_)
  refine fits_wbind (fits_idStep _ _ _ _ _ h3) (fun b4 h4 => ?_)
  exact fits_idStep _ _ _ _ _ h4

theorem fits_writeTime (b : Buffer) (t : GoTime) (hb : fitsB b) :
    fitsB (writeTime b t).buf := by
  unfold writeTime
  split
  · exact hb
  · exact fits_writeInt _ _ _ hb

theorem fits_writeInterval (b : Buffer) (d : GoDuration) (hb : fitsB b) :
    fitsB (writeInterval b d).buf := by
  unfold writeInterval
  split
  · exact hb
  · exact fits_writeInt _ _ _ hb

/-- Buffer carried by an `Except` outcome of the tag/cell loops. -/
def exBuf : Except (List Nat) (List Nat) → List Nat
  | .ok l => l
  | .error l => l

theorem writeValuesTags_len (values : List Value) (buf : List Nat) :
    (exBuf (writeValuesTags buf values)).length ≤ buf.length + values.length := by
  induction values generalizing buf with
  | nil => simp [writeValuesTags, exBuf]
  | cons v vs ih =>
    cases v with
    | gauge bits =>
      have h := ih (buf ++ [dsTypeGauge])
      simp only [writeValuesTags, List.length_append, List.length_cons,
        List.length_nil] at h ⊢
      omega
    | derive n =>
      have h := ih (buf ++ [dsTypeDerive])
      simp only [writeValuesTags, List.length_append, List.length_cons,
        List.length_nil] at h ⊢
      omega
    | counter n =>
      simp [writeValuesTags, exBuf]

theorem writeValuesCells_len (values : List Value) (buf : List Nat) :
    (exBuf (writeValuesCells buf values)).length ≤ buf.length + 8 * values.length := by
  induction values generalizing buf with
  | nil => simp [writeValuesCells, exBuf]
  | cons v vs ih =>
    cases v with
    | gauge bits =>
      have h := ih (buf ++ if isNaN64 bits then nanBytes else le64 bits)
      have hlen : (if isNaN64 bits then nanBytes else le64 bits).length = 8 := by
        split <;> rfl
      simp only [writeValuesCells, List.length_append, hlen, List.length_cons] at h ⊢
      omega
    | derive n =>
      have h := ih (buf ++ be64 (intToUint64 n))
      simp only [writeValuesCells, List.length_append, be64_len, List.length_cons] at h ⊢
      omega
    | counter n =>
      simp [writeValuesCells, exBuf]

theorem fits_writeValues (b : Buffer) (values : List Value) (hb : fitsB b) :
    fitsB (writeValues b values).buf := by
  unfold writeValues
  dsimp only
  split
  · exact hb
  · rename_i h
    push_neg at h
    cases htags : writeValuesTags
        (b.buffer ++ be16 typeValues ++ be16 (6 + 9 * values.length) ++
          be16 values.length) values with
    | error bufP =>
      have hlen := writeValuesTags_len values
        (b.buffer ++ be16 typeValues ++ be16 (6 + 9 * values.length) ++
          be16 values.length)
      rw [htags] at hlen
      simp only [exBuf, List.length_append, be16_len] at hlen
      simp only [htags, WRes.buf]
      unfold fitsB free at *
      split at h <;> push_cast at * <;> omega
    | ok buf1 =>
      have hlen1 := writeValuesTags_len values
        (b.buffer ++ be16 typeValues ++ be16 (6 + 9 * values.length) ++
          be16 values.length)
      rw [htags] at hlen1
      simp only [exBuf, List.length_append, be16_len] at hlen1
      cases hcells : writeValuesCells buf1 values with
      | error bufP =>
        have hlen2 := writeValuesCells_len values buf1
        rw [hcells] at hlen2
        simp only [exBuf] at hlen2
        simp only [htags, hcells, WRes.buf]
        unfold fitsB free at *
        split at h <;> push_cast at * <;> omega
      | ok buf2 =>
        have hlen2 := writeValuesCells_len values buf1
        rw [hcells] at hlen2
        simp only [exBuf] at hlen2
        simp only [htags, hcells, WRes.buf]
        unfold fitsB free at *
        split at h <;> push_cast at * <;> omega

theorem fits_writeValueList (b : Buffer) (vl : ValueList) (hb : fitsB b) :
    fitsB (writeValueList b vl).buf := by
  unfold writeValueList
  refine fits_wbind (fits_writeIdentifier b vl.id hb) (fun b1 h1 => ?_)
  refine fits_wbind (fits_writeTime b1 vl.time h1) (fun b2 h2 => ?_)
  refine fits_wbind (fits_writeInterval b2 vl.interval h2) (fun b3 h3 => ?_)
  exact fits_writeValues b3 vl.values h3

theorem sizeBound_of_sameCfg {a b : Buffer} (hc : sameCfg a b) (hs : sizeBound b) :
    sizeBound a := by
  obtain ⟨h1, h2, h3, h4, h5⟩ := hc
  unfold sizeBound at *
  rw [h1, h2, h3, h4]
  exact hs

theorem outputOk_of_sameCfg {a b : Buffer} (hc : sameCfg a b) (ho : outputOk b) :
    outputOk a := by
  obtain ⟨h1, h2, h3, h4, h5⟩ := hc
  unfold outputOk at *
  rw [h5]
  exact ho

theorem flush_inv (b : Buffer) (iv : List Nat) (hiv : iv.length = 16)
    (h : BufInv b) : BufInv (flush b iv) := by
  obtain ⟨hf, hs, ho⟩ := h
  unfold flush
  split
  · exact ⟨hf, hs, ho⟩
  · rename_i hne
    dsimp only
    have hble : (b.buffer.length : Int) ≤ b.size := by
      rcases hf with h | h
      · exact h
      · exact absurd (List.length_eq_zero.mp h) hne
    have hpos : 1 ≤ b.buffer.length := by
      cases hb' : b.buffer with
      | nil => exact absurd hb' hne
      | cons x xs => simp [hb']
    refine ⟨Or.inr rfl, hs, ?_⟩
    intro d hd
    unfold sizeBound at hs
    rcases List.mem_append.mp hd with hd | hd
    · exact ho d hd
    · rw [List.mem_singleton] at hd
      subst hd
      by_cases hcred : b.username ≠ [] ∧ b.password ≠ []
      · rw [if_pos hcred]
        rw [if_pos hcred] at hs
        cases henc : b.encrypt with
        | true =>
          rw [if_pos henc] at hs
          rw [if_pos rfl]
          rw [encryptAES256_length _ _ _ _ hiv]
          push_cast at hble hs ⊢
          omega
        | false =>
          rw [if_neg (by simp [henc])] at hs
          rw [if_neg (by simp)]
          rw [signSHA256_length]
          push_cast at hble hs ⊢
          omega
      · rw [if_neg hcred]
        rw [if_neg hcred] at hs
        push_cast at hble hs ⊢
        omega

theorem inv_writeValueList (b : Buffer) (vl : ValueList) (h : BufInv b) :
    BufInv (writeValueList b vl).buf := by
  have hcfg := sameCfg_writeValueList b vl
  exact ⟨fits_writeValueList b vl h.1, sizeBound_of_sameCfg hcfg h.2.1,
    outputOk_of_sameCfg hcfg h.2.2⟩

theorem inv_WriteValueList (b : Buffer) (vl : ValueList) (iv : List Nat)
    (hiv : iv.length = 16) (h : BufInv b) : BufInv (WriteValueList b vl iv).buf := by
  have hwv := inv_writeValueList b vl h
  unfold WriteValueList
  dsimp only
  split
  · rename_i b1 hw
    rw [hw] at hwv
    exact hwv
  · rename_i b1 hw
    rw [hw] at hwv
    exact hwv
  · rename_i e b1 hw
    rw [hw] at hwv
    split
    · exact hwv
    · rename_i hl
      have hcfg := sameCfg_writeValueList b vl
      rw [hw] at hcfg
      have hbt : BufInv { b1 with buffer := b1.buffer.take b.buffer.length } := by
        refine ⟨?_, sizeBound_of_sameCfg hcfg h.2.1, outputOk_of_sameCfg hcfg h.2.2⟩
        unfold fitsB
        simp only [List.length_take]
        have h1 : b1.size = b.size := hcfg.1
        rcases h.1 with hx | hx
        · left
          rw [h1]
          push_cast at hx ⊢
          omega
        · right
          omega
      have hfl := flush_inv { b1 with buffer := b1.buffer.take b.buffer.length } iv hiv hbt
      exact inv_writeValueList _ vl hfl

theorem ivList_len (f : Fin 16 → Nat) : (ivList f).length = 16 := by
  simp [ivList]

theorem runOps_inv (ops : List BufOp) (b : Buffer) (h : BufInv b) :
    BufInv (runOps b ops) := by
  induction ops generalizing b with
  | nil => exact h
  | cons op ops ih =>
    cases op with
    | write vl iv =>
      have h1 := inv_WriteValueList b vl (ivList iv) (ivList_len iv) h
      unfold runOps
      split
      · rename_i b1 hw
        rw [hw] at h1
        exact ih b1 h1
      · rename_i e b1 hw
        rw [hw] at h1
        exact ih b1 h1
      · rename_i b1 hw
        rw [hw] at h1
        exact h1
    | flushOp iv =>
      unfold runOps
      exact ih _ (flush_inv b (ivList iv) (ivList_len iv) h)

theorem mkBuffer_inv (init : BufInit) : BufInv (mkBuffer init) := by
  cases init with
  | plain =>
    refine ⟨Or.inr rfl, ?_, ?_⟩
    · show sizeBound NewBuffer
      unfold sizeBound NewBuffer DefaultBufferSize
      simp
    · intro d hd
      exact absurd hd (List.not_mem_nil d)
  | signed u w =>
    refine ⟨Or.inr rfl, ?_, ?_⟩
    · show sizeBound (NewBufferSigned u w)
      unfold sizeBound NewBufferSigned DefaultBufferSize
      dsimp only
      by_cases hcred : u ≠ [] ∧ w ≠ []
      · rw [if_pos hcred]
        rw [if_neg (by simp)]
        push_cast
        omega
      · rw [if_neg hcred]
        push_cast
        omega
    · intro d hd
      exact absurd hd (List.not_mem_nil d)
  | encrypted u w =>
    refine ⟨Or.inr rfl, ?_, ?_⟩
    · show sizeBound (NewBufferEncrypted u w)
      unfold sizeBound NewBufferEncrypted DefaultBufferSize
      dsimp only
      by_cases hcred : u ≠ [] ∧ w ≠ []
      · rw [if_pos hcred]
        rw [if_pos rfl]
        push_cast
        omega
      · rw [if_neg hcred]
        push_cast
        omega
    · intro d hd
      exact absurd hd (List.not_mem_nil d)

/-- **C3**: every datagram a `Buffer` flush produces — across any sequence of
writes and flushes from any of the three constructors — is at most 1452 bytes
(`DefaultBufferSize`), envelope overhead included; moreover the signed
envelope adds exactly `36 + len(username)` bytes to its payload and the
encrypted envelope exactly `42 + len(username)` bytes, which is precisely the
amount by which `NewBufferSigned` / `NewBufferEncrypted` shrink the payload
budget. -/
theorem claim_C3 (init : BufInit) (ops : List BufOp)
    (payload username password iv : List Nat) (hiv : iv.length = 16) :
    ((runOps (mkBuffer init) ops).output).all (fun d => d.length ≤ 1452) = true ∧
    (signSHA256 payload username password).length =
      36 + username.length + payload.length ∧
    (encryptAES256 payload username password iv).length =
      42 + username.length + payload.length := by
  refine ⟨?_, signSHA256_length _ _ _, encryptAES256_length _ _ _ _ hiv⟩
  have h := runOps_inv ops (mkBuffer init) (mkBuffer_inv init)
  rw [List.all_eq_true]
  intro d hd
  exact decide_eq_true (h.2.2 d hd)

/-- C3, witness: a run from a plain buffer, and the envelope lengths at
one-byte payload, username, and password. -/
theorem claim_C3_witness :
    (List.replicate 16 (0 : Nat)).length = 16 ∧
    (((runOps (mkBuffer .plain) []).output).all (fun d => d.length ≤ 1452) = true ∧
     (signSHA256 [1] [2] [3]).length = 36 + 1 + 1 ∧
     (encryptAES256 [1] [2] [3] (List.replicate 16 0)).length = 42 + 1 + 1) :=
  ⟨by decide, claim_C3 .plain [] [1] [2] [3] (List.replicate 16 0) (by decide)⟩

/-! ## C4: sign/verify round trip and MAC bit flips -/

theorem xor_pow2_ne_self (a k : Nat) : a ^^^ 2 ^ k ≠ a := by
  intro h
  have h2 := congrArg (fun x => a ^^^ x) h
  simp only [← Nat.xor_assoc, Nat.xor_self, Nat.zero_xor, Nat.xor_zero] at h2
  have := Nat.pos_pow_of_pos k (by norm_num : 0 < 2)
  omega

theorem signSHA256_drop4 (P U W : List Nat) :
    (signSHA256 P U W).drop 4 = hmacSHA256 W (U ++ P) ++ (U ++ P) := by
  unfold signSHA256
  rw [show be16 typeSignSHA256 ++ be16 (36 + U.length) ++ hmacSHA256 W (U ++ P) ++ U ++ P
      = (be16 typeSignSHA256 ++ be16 (36 + U.length)) ++ (hmacSHA256 W (U ++ P) ++ (U ++ P))
    by simp [List.append_assoc]]
  exact List.drop_left' (by simp [be16_len])

theorem signSHA256_part (P U W : List Nat) :
    ((signSHA256 P U W).drop 4).take (32 + U.length) = hmacSHA256 W (U ++ P) ++ U := by
  rw [signSHA256_drop4]
  rw [show hmacSHA256 W (U ++ P) ++ (U ++ P) = (hmacSHA256 W (U ++ P) ++ U) ++ P
    by simp [List.append_assoc]]
  exact List.take_left' (by simp [hmacSHA256_length])

theorem signSHA256_payload (P U W : List Nat) :
    (signSHA256 P U W).drop (36 + U.length) = P := by
  unfold signSHA256
  exact List.drop_left' (by simp [be16_len, hmacSHA256_length]; omega)

theorem verify_hmac_user (mac U payload W : List Nat) (hU : U ≠ [])
    (hmac : mac.length = 32) :
    verifySHA256 (mac ++ U) payload (fun x => if x = U then some W else none) =
      (decide (mac = hmacSHA256 W (U ++ payload)), none) := by
  unfold verifySHA256
  rw [if_neg (by
    simp only [List.length_append, hmac]
    have : 1 ≤ U.length := by
      cases U with
      | nil => exact absurd rfl hU
      | cons x xs => simp
    omega)]
  rw [List.take_left' hmac, List.drop_left' hmac]
  dsimp only
  rw [if_pos rfl]

/-- **C4**, counterexample: with the empty username the signature part is
exactly 32 bytes, so `verifySHA256` rejects it with `part too small` — the
claim's first conjunct fails at `P = U = W = []`. -/
theorem claim_C4_counterexample :
    verifySHA256 (((signSHA256 [] [] []).drop 4).take (32 + ([] : List Nat).length))
        ((signSHA256 [] [] []).drop (36 + ([] : List Nat).length))
        (fun x => if x = [] then some [] else none) =
      (false, some CErr.partTooSmall) := by
  decide

/-- **C4** (amended): for a non-empty username, verifying the part produced by
`signSHA256` against a password map that assigns `W` to `U` returns
`(true, nil)`, and flipping any single bit of the 32-byte MAC makes
verification return `(false, nil)`.  (The claim's remaining clause — flipping
a bit of the signed *payload* flips the verdict — is the second-preimage
resistance of HMAC-SHA256 and is not a theorem of this code.) -/
theorem claim_C4_amended (P U W : List Nat) (hU : U ≠ []) :
    (verifySHA256 (((signSHA256 P U W).drop 4).take (32 + U.length))
        ((signSHA256 P U W).drop (36 + U.length))
        (fun x => if x = U then some W else none) = (true, none)) ∧
    (∀ i : Fin 32, ∀ k : Fin 8,
      verifySHA256
          ((((signSHA256 P U W).drop 4).take (32 + U.length)).set i
            (((((signSHA256 P U W).drop 4).take (32 + U.length)).getD i 0) ^^^ 2 ^ (k : Nat)))
          ((signSHA256 P U W).drop (36 + U.length))
          (fun x => if x = U then some W else none) = (false, none)) := by
  rw [signSHA256_part, signSHA256_payload]
  constructor
  · rw [verify_hmac_user _ _ _ _ hU (hmacSHA256_length _ _)]
    simp
  · intro i k
    have hlen := hmacSHA256_length W (U ++ P)
    have hi : (i : Nat) < (hmacSHA256 W (U ++ P)).length := by rw [hlen]; exact i.isLt
    rw [List.set_append, if_pos hi]
    rw [List.getD_append _ _ _ _ hi]
    rw [verify_hmac_user _ _ _ _ hU (by rw [List.length_set]; exact hlen)]
    have hne : (hmacSHA256 W (U ++ P)).set i
        ((hmacSHA256 W (U ++ P)).getD i 0 ^^^ 2 ^ (k : Nat)) ≠ hmacSHA256 W (U ++ P) := by
      intro he
      have hii : (i : Nat) < ((hmacSHA256 W (U ++ P)).set i
          ((hmacSHA256 W (U ++ P)).getD i 0 ^^^ 2 ^ (k : Nat))).length := by
        rw [List.length_set]; exact hi
      have h1 := congrArg (fun l => l.getD (i : Nat) 0) he
      simp only at h1
      rw [List.getD_eq_getElem _ _ hii] at h1
      rw [List.getElem_set_self] at h1
      exact xor_pow2_ne_self _ _ h1
    rw [decide_eq_false hne]

/-- C4, witness for the amended theorem: payload `[2]`, user `[1]`,
password `[3]`. -/
theorem claim_C4_witness :
    ([1] : List Nat) ≠ [] ∧
    ((verifySHA256 (((signSHA256 [2] [1] [3]).drop 4).take (32 + ([1] : List Nat).length))
        ((signSHA256 [2] [1] [3]).drop (36 + ([1] : List Nat).length))
        (fun x => if x = [1] then some [3] else none) = (true, none)) ∧
     (∀ i : Fin 32, ∀ k : Fin 8,
      verifySHA256
          ((((signSHA256 [2] [1] [3]).drop 4).take (32 + ([1] : List Nat).length)).set i
            (((((signSHA256 [2] [1] [3]).drop 4).take (32 + ([1] : List Nat).length)).getD i 0) ^^^ 2 ^ (k : Nat)))
          ((signSHA256 [2] [1] [3]).drop (36 + ([1] : List Nat).length))
          (fun x => if x = [1] then some [3] else none) = (false, none))) :=
  ⟨by decide, claim_C4_amended [2] [1] [3] (by decide)⟩

/-! ## C5: encrypt/decrypt round trip -/

theorem strXor_involution (d ks : List Nat) (h : d.length ≤ ks.length) :
    strXor (strXor d ks) ks = d := by
  unfold strXor
  induction d generalizing ks with
  | nil => simp
  | cons a t ih =>
    cases ks with
    | nil => simp at h
    | cons b kt =>
      simp only [List.zipWith_cons_cons, List.cons.injEq]
      exact ⟨by rw [Nat.xor_assoc, Nat.xor_self, Nat.xor_zero],
        ih kt (by simpa using h)⟩

theorem strXor_len (d ks : List Nat) : (strXor d ks).length = min d.length ks.length := by
  simp [strXor]

theorem encryptAES256_drop4 (P U W iv : List Nat) :
    (encryptAES256 P U W iv).drop 4 =
      be16 U.length ++ (U ++ (iv ++ strXor (sha1 P ++ P)
        (ofbKeystream (sha256 W) (((sha1 P ++ P).length + 15) / 16) iv))) := by
  unfold encryptAES256
  rw [show be16 typeEncryptAES256 ++ be16 (42 + U.length + P.length) ++ be16 U.length ++ U ++
      iv ++ strXor (sha1 P ++ P) (ofbKeystream (sha256 W) (((sha1 P ++ P).length + 15) / 16) iv)
      = (be16 typeEncryptAES256 ++ be16 (42 + U.length + P.length)) ++
        (be16 U.length ++ (U ++ (iv ++ strXor (sha1 P ++ P)
          (ofbKeystream (sha256 W) (((sha1 P ++ P).length + 15) / 16) iv))))
    by simp [List.append_assoc]]
  exact List.drop_left' (by simp [be16_len])

theorem decrypt_concat (U W iv body P : List Nat)
    (hU : U.length < 65536) (hiv : iv.length = 16)
    (hbody : body.length = 20 + P.length) (hP : 7 ≤ P.length)
    (hplain : strXor body (ofbKeystream (sha256 W) ((body.length + 15) / 16) iv) =
      sha1 P ++ P) :
    decryptAES256 (be16 U.length ++ (U ++ (iv ++ body)))
        (fun x => if x = U then some W else none) = .ok P := by
  unfold decryptAES256
  dsimp only
  rw [List.take_left' (be16_len U.length), List.drop_left' (be16_len U.length)]
  rw [beToNat_be16 U.length hU]
  rw [@List.take_left' _ U (iv ++ body) U.length rfl]
  rw [@List.drop_left' _ U (iv ++ body) U.length rfl]
  rw [List.take_left' hiv, List.drop_left' hiv]
  rw [if_neg (by simp only [List.length_append, be16_len]; omega)]
  rw [if_neg (by simp only [List.length_append, hiv, hbody]; omega)]
  rw [if_pos rfl]
  dsimp only
  rw [if_neg (by simp only [List.length_append, hiv, hbody]; omega)]
  rw [hplain]
  rw [if_neg (by simp only [List.length_append, sha1_length]; omega)]
  rw [List.drop_left' (sha1_length P), List.take_left' (sha1_length P)]
  rw [if_neg (by simp)]

/-- **C5** (amended): for plaintexts of at least 7 bytes and usernames shorter
than 2^16, decrypting the AES-256-OFB envelope produced by `encryptAES256`
(with any 16-byte IV in place of the random bytes) against a password map
assigning `W` to `U` succeeds and returns exactly `P`. -/
theorem claim_C5_amended (P U W iv : List Nat) (hP : 7 ≤ P.length)
    (hU : U.length < 65536) (hiv : iv.length = 16) :
    decryptAES256 ((encryptAES256 P U W iv).drop 4)
        (fun x => if x = U then some W else none) = .ok P := by
  rw [encryptAES256_drop4]
  have hdata : (sha1 P ++ P).length = 20 + P.length := by
    simp only [List.length_append, sha1_length]
  have hks := ofbKeystream_len (sha256 W) (((sha1 P ++ P).length + 15) / 16) iv
  have hdk : (sha1 P ++ P).length ≤
      (ofbKeystream (sha256 W) (((sha1 P ++ P).length + 15) / 16) iv).length := by
    rw [hks]
    omega
  have hbody : (strXor (sha1 P ++ P)
      (ofbKeystream (sha256 W) (((sha1 P ++ P).length + 15) / 16) iv)).length =
      20 + P.length := by
    rw [strXor_len, Nat.min_eq_left hdk]
    exact hdata
  refine decrypt_concat U W iv _ P hU hiv hbody hP ?_
  rw [hbody, show (20 + P.length + 15) / 16 = ((sha1 P ++ P).length + 15) / 16 by rw [hdata]]
  exact strXor_involution _ _ hdk

/-- **C5**, counterexample: for plaintexts of up to 6 bytes the envelope's
payload is at most `42 + len(U)` bytes, which `decryptAES256` rejects as
`invalid username length` before any decryption — the round trip fails at
`P = []`. -/
theorem claim_C5_counterexample :
    decryptAES256 ((encryptAES256 [] [] [] (List.replicate 16 0)).drop 4)
        (fun x => if x = [] then some [] else none) =
      .err CErr.invalidUsernameLength := by
  decide

/-- C5, witness for the amended theorem: a 7-byte plaintext round-trips
through the encrypted envelope. -/
theorem claim_C5_witness :
    7 ≤ ([0, 1, 2, 3, 4, 5, 6] : List Nat).length ∧
    ([1] : List Nat).length < 65536 ∧
    (List.replicate 16 (3 : Nat)).length = 16 ∧
    decryptAES256 ((encryptAES256 [0, 1, 2, 3, 4, 5, 6] [1] [2] (List.replicate 16 3)).drop 4)
        (fun x => if x = [1] then some [2] else none) = .ok [0, 1, 2, 3, 4, 5, 6] :=
  ⟨by decide, by decide, by decide,
    claim_C5_amended [0, 1, 2, 3, 4, 5, 6] [1] [2] (List.replicate 16 3)
      (by decide) (by decide) (by decide)⟩

/-! ## C1: encoder/parser round trip -/

theorem parseGo_fuel (f : Nat) : ∀ (g : Nat) (b : List Nat) (st : ValueList)
    (acc : List ValueList), b.length ≤ f → b.length ≤ g →
    parseGo f b st acc = parseGo g b st acc := by
  induction f with
  | zero =>
    intro g b st acc hf hg
    have hb : b = [] := List.length_eq_zero.mp (Nat.le_zero.mp hf)
    subst hb
    rw [parseGo_nil, parseGo_nil]
  | succ f ih =>
    intro g b st acc hf hg
    cases b with
    | nil => rw [parseGo_nil, parseGo_nil]
    | cons b0 brest =>
      cases g with
      | zero => simp at hg
      | succ g =>
        simp only [parseGo]
        split
        · rfl
        · rename_i h4
          split
          · rfl
          · rename_i hplen
            push_neg at h4 hplen
            have hrem : (((b0 :: brest).drop 4).drop
                (beToNat (((b0 :: brest).drop 2).take 2) - 4)).length ≤
                (b0 :: brest).length - 5 := by
              simp only [List.length_drop]
              omega
            split
            · split
              · rfl
              · exact ih g _ _ _ (by simp at hf ⊢; omega) (by simp at hg ⊢; omega)
            · split
              · split
                · rfl
                · exact ih g _ _ _ (by simp at hf ⊢; omega) (by simp at hg ⊢; omega)
              · split
                · split
                  · rfl
                  · exact ih g _ _ _ (by simp at hf ⊢; omega) (by simp at hg ⊢; omega)
                · exact ih g _ _ _ (by simp at hf ⊢; omega) (by simp at hg ⊢; omega)

inductive PartDesc where
  | str (typ : Nat) (s : List Nat)
  | int (typ : Nat) (n : Nat)

def partsBytes : List PartDesc → List Nat
  | [] => []
  | .str t s :: ps => stringPart t s ++ partsBytes ps
  | .int t n :: ps => intPart t n ++ partsBytes ps

def applyParts (st : ValueList) : List PartDesc → ValueList
  | [] => st
  | .str t s :: ps => applyParts (setStringField st t s) ps
  | .int t n :: ps => applyParts (setIntField st t n) ps

def partOk : PartDesc → Bool
  | .str t _ => decide (t = typeHost ∨ t = typePlugin ∨ t = typePluginInstance ∨
      t = typeType ∨ t = typeTypeInstance)
  | .int t n => decide (t = typeInterval ∨ t = typeIntervalHR ∨ t = typeTime ∨
      t = typeTimeHR) && decide (n < 2 ^ 64)

theorem parseGo_parts (ps : List PartDesc) (rest : List Nat) (st : ValueList)
    (acc : List ValueList) (hok : ps.all partOk = true)
    (hsz : (partsBytes ps ++ rest).length < 65536) :
    parseGo (partsBytes ps ++ rest).length (partsBytes ps ++ rest) st acc =
      parseGo rest.length rest (applyParts st ps) acc := by
  induction ps generalizing st with
  | nil => simp [partsBytes, applyParts]
  | cons p ps ih =>
    have hokp : partOk p = true := by
      rw [List.all_cons, Bool.and_eq_true] at hok
      exact hok.1
    have hokps : ps.all partOk = true := by
      rw [List.all_cons, Bool.and_eq_true] at hok
      exact hok.2
    cases p with
    | str t s =>
      have htyp : t = typeHost ∨ t = typePlugin ∨ t = typePluginInstance ∨
          t = typeType ∨ t = typeTypeInstance := by
        simpa [partOk] using hokp
      simp only [partsBytes, List.append_assoc] at hsz ⊢
      have hslen : s.length + 5 < 65536 := by
        simp only [List.length_append, stringPart_len] at hsz
        omega
      have hL : (stringPart t s ++ (partsBytes ps ++ rest)).length =
          (s.length + 4 + (partsBytes ps ++ rest).length) + 1 := by
        simp only [List.length_append, stringPart_len]
        omega
      rw [hL, parseGo_string_step _ t s _ st acc htyp hslen]
      rw [parseGo_fuel _ (partsBytes ps ++ rest).length _ _ _ (by omega) le_rfl]
      rw [ih _ hokps (by simp only [List.length_append] at hsz ⊢; omega)]
      rfl
    | int t n =>
      have htyp : t = typeInterval ∨ t = typeIntervalHR ∨ t = typeTime ∨
          t = typeTimeHR := by
        have := hokp
        simp only [partOk, Bool.and_eq_true, decide_eq_true_eq] at this
        exact this.1
      have hn : n < 2 ^ 64 := by
        have := hokp
        simp only [partOk, Bool.and_eq_true, decide_eq_true_eq] at this
        exact this.2
      simp only [partsBytes, List.append_assoc] at hsz ⊢
      have hL : (intPart t n ++ (partsBytes ps ++ rest)).length =
          (11 + (partsBytes ps ++ rest).length) + 1 := by
        simp only [List.length_append, intPart_len]
        omega
      rw [hL, parseGo_int_step _ t n _ st acc htyp hn]
      rw [parseGo_fuel _ (partsBytes ps ++ rest).length _ _ _ (by omega) le_rfl]
      rw [ih _ hokps (by simp only [List.length_append] at hsz ⊢; omega)]
      rfl

/-- The conditional parts written before the values part. -/
def encPartsOf (st vl : ValueList) : List PartDesc :=
  (if vl.id.host = st.id.host then [] else [.str typeHost vl.id.host]) ++
  (if vl.id.plugin = st.id.plugin then [] else [.str typePlugin vl.id.plugin]) ++
  (if vl.id.pluginInstance = st.id.pluginInstance then []
    else [.str typePluginInstance vl.id.pluginInstance]) ++
  (if vl.id.type_ = st.id.type_ then [] else [.str typeType vl.id.type_]) ++
  (if vl.id.typeInstance = st.id.typeInstance then []
    else [.str typeTypeInstance vl.id.typeInstance]) ++
  (if st.time = vl.time then [] else [.int typeTimeHR (Cdtime vl.time)]) ++
  (if st.interval = vl.interval then []
    else [.int typeIntervalHR (CdtimeDuration vl.interval)])

theorem partsBytes_append (a b : List PartDesc) :
    partsBytes (a ++ b) = partsBytes a ++ partsBytes b := by
  induction a with
  | nil => simp [partsBytes]
  | cons p ps ih =>
    cases p with
    | str t s => simp [partsBytes, ih]
    | int t n => simp [partsBytes, ih]

theorem applyParts_append (st : ValueList) (a b : List PartDesc) :
    applyParts st (a ++ b) = applyParts (applyParts st a) b := by
  induction a generalizing st with
  | nil => simp [applyParts]
  | cons p ps ih =>
    cases p with
    | str t s => simp [applyParts, ih]
    | int t n => simp [applyParts, ih]

theorem partsBytes_ite_str (c : Prop) [Decidable c] (t : Nat) (s : List Nat) :
    partsBytes (if c then [] else [.str t s]) = if c then [] else stringPart t s := by
  split <;> simp [partsBytes]

theorem partsBytes_ite_int (c : Prop) [Decidable c] (t n : Nat) :
    partsBytes (if c then [] else [.int t n]) = if c then [] else intPart t n := by
  split <;> simp [partsBytes]

theorem partsBytes_encPartsOf (st vl : ValueList) :
    partsBytes (encPartsOf st vl) ++ valuesPart vl.values = encBytes st vl := by
  unfold encPartsOf encBytes idBytes
  simp only [partsBytes_append, partsBytes_ite_str, partsBytes_ite_int,
    List.append_assoc]


theorem cdtimeNano_lt (ns : Nat) : cdtimeNano ns < 2 ^ 64 := by
  unfold cdtimeNano
  apply Nat.or_lt_two_pow
  · exact Nat.mod_lt _ (by norm_num)
  · apply lt_of_lt_of_le _ (by norm_num : (2 : Nat) ^ 30 ≤ 2 ^ 64)
    rw [Nat.shiftLeft_eq, Nat.div_lt_iff_lt_mul (by norm_num : 0 < 1000000000)]
    have h1 : ns % 1000000000 < 1000000000 := Nat.mod_lt _ (by norm_num)
    omega

theorem Cdtime_lt (t : GoTime) : Cdtime t < 2 ^ 64 := cdtimeNano_lt _

theorem CdtimeDuration_lt (d : GoDuration) : CdtimeDuration d < 2 ^ 64 := cdtimeNano_lt _

theorem all_ite_chunk (c : Prop) [Decidable c] (p : PartDesc) (h : partOk p = true) :
    (if c then [] else [p]).all partOk = true := by
  split
  · rfl
  · simp [h]

theorem partOk_str (t : Nat) (s : List Nat)
    (h : t = typeHost ∨ t = typePlugin ∨ t = typePluginInstance ∨ t = typeType ∨
      t = typeTypeInstance) : partOk (.str t s) = true := by
  simp only [partOk, decide_eq_true_eq]
  exact h

theorem partOk_int (t n : Nat)
    (h : t = typeInterval ∨ t = typeIntervalHR ∨ t = typeTime ∨ t = typeTimeHR)
    (hn : n < 2 ^ 64) : partOk (.int t n) = true := by
  simp only [partOk, Bool.and_eq_true, decide_eq_true_eq]
  exact ⟨h, hn⟩

theorem encPartsOf_ok (st vl : ValueList) : (encPartsOf st vl).all partOk = true := by
  unfold encPartsOf
  simp only [List.all_append, Bool.and_eq_true]
  refine ⟨⟨⟨⟨⟨⟨?_, ?_⟩, ?_⟩, ?_⟩, ?_⟩, ?_⟩, ?_⟩
  · exact all_ite_chunk _ _ (partOk_str _ _ (Or.inl rfl))
  · exact all_ite_chunk _ _ (partOk_str _ _ (Or.inr (Or.inl rfl)))
  · exact all_ite_chunk _ _ (partOk_str _ _ (Or.inr (Or.inr (Or.inl rfl))))
  · exact all_ite_chunk _ _ (partOk_str _ _ (Or.inr (Or.inr (Or.inr (Or.inl rfl)))))
  · exact all_ite_chunk _ _ (partOk_str _ _ (Or.inr (Or.inr (Or.inr (Or.inr rfl)))))
  · exact all_ite_chunk _ _ (partOk_int _ _ (Or.inr (Or.inr (Or.inr rfl))) (Cdtime_lt _))
  · exact all_ite_chunk _ _ (partOk_int _ _ (Or.inr (Or.inl rfl)) (CdtimeDuration_lt _))

theorem applyParts_str_chunk (st : ValueList) (c : Prop) [Decidable c] (t : Nat)
    (s : List Nat) (res : ValueList)
    (helide : c → st = res) (hset : setStringField st t s = res) :
    applyParts st (if c then [] else [.str t s]) = res := by
  split
  · rename_i h
    exact helide h
  · show applyParts (setStringField st t s) [] = res
    rw [applyParts, hset]

theorem applyParts_int_chunk (st : ValueList) (c : Prop) [Decidable c] (t : Nat)
    (n : Nat) (res : ValueList)
    (helide : c → st = res) (hset : setIntField st t n = res) :
    applyParts st (if c then [] else [.int t n]) = res := by
  split
  · rename_i h
    exact helide h
  · show applyParts (setIntField st t n) [] = res
    rw [applyParts, hset]

theorem applyParts_host (st : ValueList) (c : Prop) [Decidable c] (h : List Nat)
    (hc : c → h = st.id.host) (ps : List PartDesc) :
    applyParts st ((if c then [] else [.str typeHost h]) ++ ps) =
      applyParts { st with id := { st.id with host := h } } ps := by
  rw [applyParts_append]
  congr 1
  split
  · rename_i hcc
    rw [hc hcc]
    rfl
  · rfl

theorem applyParts_plugin (st : ValueList) (c : Prop) [Decidable c] (h : List Nat)
    (hc : c → h = st.id.plugin) (ps : List PartDesc) :
    applyParts st ((if c then [] else [.str typePlugin h]) ++ ps) =
      applyParts { st with id := { st.id with plugin := h } } ps := by
  rw [applyParts_append]
  congr 1
  split
  · rename_i hcc
    rw [hc hcc]
    rfl
  · rfl

theorem applyParts_pluginInstance (st : ValueList) (c : Prop) [Decidable c]
    (h : List Nat) (hc : c → h = st.id.pluginInstance) (ps : List PartDesc) :
    applyParts st ((if c then [] else [.str typePluginInstance h]) ++ ps) =
      applyParts { st with id := { st.id with pluginInstance := h } } ps := by
  rw [applyParts_append]
  congr 1
  split
  · rename_i hcc
    rw [hc hcc]
    rfl
  · rfl

theorem applyParts_type (st : ValueList) (c : Prop) [Decidable c] (h : List Nat)
    (hc : c → h = st.id.type_) (ps : List PartDesc) :
    applyParts st ((if c then [] else [.str typeType h]) ++ ps) =
      applyParts { st with id := { st.id with type_ := h } } ps := by
  rw [applyParts_append]
  congr 1
  split
  · rename_i hcc
    rw [hc hcc]
    rfl
  · rfl

theorem applyParts_typeInstance (st : ValueList) (c : Prop) [Decidable c]
    (h : List Nat) (hc : c → h = st.id.typeInstance) (ps : List PartDesc) :
    applyParts st ((if c then [] else [.str typeTypeInstance h]) ++ ps) =
      applyParts { st with id := { st.id with typeInstance := h } } ps := by
  rw [applyParts_append]
  congr 1
  split
  · rename_i hcc
    rw [hc hcc]
    rfl
  · rfl

theorem applyParts_time (st : ValueList) (c : Prop) [Decidable c] (n : Nat)
    (t : GoTime) (hc : c → st.time = t) (hn : cdtimeToTime n = t) (ps : List PartDesc) :
    applyParts st ((if c then [] else [.int typeTimeHR n]) ++ ps) =
      applyParts { st with time := t } ps := by
  rw [applyParts_append]
  congr 1
  split
  · rename_i hcc
    rw [← hc hcc]
    rfl
  · show setIntField st typeTimeHR n = _
    rw [show setIntField st typeTimeHR n = { st with time := cdtimeToTime n } from rfl, hn]

theorem applyParts_interval_last (st : ValueList) (c : Prop) [Decidable c] (n : Nat)
    (d : GoDuration) (hc : c → st.interval = d) (hn : cdtimeToDuration n = d) :
    applyParts st (if c then [] else [.int typeIntervalHR n]) = { st with interval := d } := by
  split
  · rename_i hcc
    rw [← hc hcc]
    rfl
  · show setIntField st typeIntervalHR n = _
    rw [show setIntField st typeIntervalHR n = { st with interval := cdtimeToDuration n }
      from rfl, hn]

theorem applyParts_encPartsOf (st vl : ValueList)
    (ht : cdtimeToTime (Cdtime vl.time) = vl.time)
    (hd : cdtimeToDuration (CdtimeDuration vl.interval) = vl.interval) :
    applyParts st (encPartsOf st vl) =
      { st with id := vl.id, time := vl.time, interval := vl.interval } := by
  unfold encPartsOf
  simp only [List.append_assoc]
  rw [applyParts_host st _ vl.id.host (fun h => h)]
  rw [applyParts_plugin _ _ vl.id.plugin (fun h => h)]
  rw [applyParts_pluginInstance _ _ vl.id.pluginInstance (fun h => h)]
  rw [applyParts_type _ _ vl.id.type_ (fun h => h)]
  rw [applyParts_typeInstance _ _ vl.id.typeInstance (fun h => h)]
  rw [applyParts_time _ _ (Cdtime vl.time) vl.time (fun h => h) ht]
  rw [applyParts_interval_last _ _ (CdtimeDuration vl.interval) vl.interval
    (fun h => h) hd]

/-- Parser reconstruction of one value: NaN gauges come back as the canonical
on-wire NaN. -/
def normalizeValue : Value → Value
  | .gauge bits => .gauge (if isNaN64 bits then 0x7FF8000000000000 else bits)
  | v => v

def normalizeVL (vl : ValueList) : ValueList :=
  { vl with values := vl.values.map normalizeValue }

def legalValue : Value → Bool
  | .gauge bits => decide (bits < 2 ^ 64)
  | .derive v => decide (-(2 ^ 63) ≤ v ∧ v < 2 ^ 63)
  | .counter _ => false

theorem intToUint64_lt (v : Int) : intToUint64 v < 2 ^ 64 := by
  unfold intToUint64
  omega

theorem uint64ToInt64_intToUint64 (v : Int) (h1 : -(2 ^ 63) ≤ v) (h2 : v < 2 ^ 63) :
    uint64ToInt64 (intToUint64 v) = v := by
  simp only [uint64ToInt64, intToUint64]
  split <;> omega

theorem leToNat_nanBytes : leToNat nanBytes = 0x7FF8000000000000 := by decide

theorem parseValuesLoop_enc (values : List Value)
    (hleg : values.all legalValue = true) :
    parseValuesLoop (tagsOf values) (cellsOf values) = .ok (values.map normalizeValue) := by
  induction values with
  | nil => rfl
  | cons v vs ih =>
    have hv : legalValue v = true := by
      rw [List.all_cons, Bool.and_eq_true] at hleg
      exact hleg.1
    have hvs : vs.all legalValue = true := by
      rw [List.all_cons, Bool.and_eq_true] at hleg
      exact hleg.2
    cases v with
    | gauge bits =>
      have hbits : bits < 2 ^ 64 := by simpa [legalValue] using hv
      have hcell : (if isNaN64 bits then nanBytes else le64 bits).length = 8 := by
        split <;> rfl
      simp only [tagsOf, cellsOf, List.map_cons, List.flatMap_cons] at ih ⊢
      simp only [parseValuesLoop]
      rw [if_pos trivial]
      rw [if_neg (by simp only [List.length_append, hcell, Nat.not_lt]; omega)]
      rw [List.take_left' hcell, List.drop_left' hcell]
      rw [ih hvs]
      show Except.ok (Value.gauge (leToNat (if isNaN64 bits then nanBytes else le64 bits))
        :: vs.map normalizeValue) = _
      by_cases hnan : isNaN64 bits
      · rw [if_pos hnan, leToNat_nanBytes]
        simp [normalizeValue, hnan]
      · rw [if_neg hnan, leToNat_le64 bits hbits]
        simp [normalizeValue, hnan]
    | derive n =>
      have hn : -(2 ^ 63) ≤ n ∧ n < 2 ^ 63 := by simpa [legalValue] using hv
      simp only [tagsOf, cellsOf, List.map_cons, List.flatMap_cons] at ih ⊢
      simp only [parseValuesLoop]
      rw [if_neg (by decide)]
      rw [if_pos (Or.inl trivial)]
      rw [if_neg (by simp only [List.length_append, be64_len, Nat.not_lt]; omega)]
      rw [List.take_left' (be64_len _), List.drop_left' (be64_len _)]
      rw [ih hvs]
      show Except.ok (Value.derive (uint64ToInt64 (beToNat (be64 (intToUint64 n))))
        :: vs.map normalizeValue) = _
      rw [beToNat_be64 _ (intToUint64_lt n), uint64ToInt64_intToUint64 n hn.1 hn.2]
      rfl
    | counter n =>
      simp [legalValue] at hv

theorem parseValues_enc (values : List Value) (hleg : values.all legalValue = true)
    (hlen : 9 * values.length + 6 < 65536) :
    parseValues (be16 values.length ++ tagsOf values ++ cellsOf values) =
      .ok (values.map normalizeValue) := by
  have hn : values.length < 65536 := by omega
  rw [List.append_assoc]
  unfold parseValues
  dsimp only
  rw [List.take_left' (be16_len _), beToNat_be16 _ hn]
  rw [List.drop_left' (be16_len _)]
  rw [if_neg (by
    simp only [List.length_append, be16_len, tagsOf_len, cellsOf_len, Nat.not_lt]
    omega)]
  rw [if_neg (by
    simp only [List.length_append, tagsOf_len, cellsOf_len]
    intro hne
    apply hne
    rw [Nat.mod_eq_of_lt (by omega)]
    omega)]
  rw [if_neg (by
    simp only [List.length_append, tagsOf_len, cellsOf_len, not_and]
    intro h0
    omega)]
  rw [List.take_left' (tagsOf_len _), List.drop_left' (tagsOf_len _)]
  rw [show values.length - min values.length (tagsOf values ++ cellsOf values).length
      = 0 by
    simp only [List.length_append, tagsOf_len, cellsOf_len]
    omega]
  rw [List.replicate_zero, List.append_nil]
  exact parseValuesLoop_enc values hleg

/-- A value list from the legal round-trip domain: only gauge/derive values
(derives within int64, gauge bit patterns within uint64), non-empty host,
plugin and type, a positive interval, and a time and interval that are exactly
representable in cdtime. -/
def legalVL (vl : ValueList) : Bool :=
  vl.values.all legalValue &&
  decide (vl.id.host ≠ []) && decide (vl.id.plugin ≠ []) &&
  decide (vl.id.type_ ≠ []) && decide (0 < vl.interval) &&
  decide (cdtimeToTime (Cdtime vl.time) = vl.time) &&
  decide (cdtimeToDuration (CdtimeDuration vl.interval) = vl.interval)

/-- The bytes a sequence of successful writes appends, threading the shadow. -/
def encAll (st : ValueList) : List ValueList → List Nat
  | [] => []
  | vl :: vls => encBytes st vl ++ encAll (encState st vl) vls

/-- The shadow state after a sequence of successful writes. -/
def encStateAll (st : ValueList) : List ValueList → ValueList
  | [] => st
  | vl :: vls => encStateAll (encState st vl) vls

theorem parse_encAll (vls : List ValueList) (st : ValueList) (acc : List ValueList)
    (hleg : vls.all legalVL = true) (hlen : (encAll st vls).length < 65536) :
    parseGo (encAll st vls).length (encAll st vls) st acc =
      .res (acc ++ vls.map normalizeVL) none := by
  induction vls generalizing st acc with
  | nil => simp [encAll, parseGo_nil]
  | cons vl vls ih =>
    have hvl : legalVL vl = true := by
      rw [List.all_cons, Bool.and_eq_true] at hleg
      exact hleg.1
    have hvls : vls.all legalVL = true := by
      rw [List.all_cons, Bool.and_eq_true] at hleg
      exact hleg.2
    have ht : cdtimeToTime (Cdtime vl.time) = vl.time := by
      simp only [legalVL, Bool.and_eq_true, decide_eq_true_eq] at hvl
      exact hvl.1.2
    have hd : cdtimeToDuration (CdtimeDuration vl.interval) = vl.interval := by
      simp only [legalVL, Bool.and_eq_true, decide_eq_true_eq] at hvl
      exact hvl.2
    have hvals : vl.values.all legalValue = true := by
      simp only [legalVL, Bool.and_eq_true, decide_eq_true_eq] at hvl
      exact hvl.1.1.1.1.1.1
    rw [show encAll st (vl :: vls) = encBytes st vl ++ encAll (encState st vl) vls
      from rfl] at hlen ⊢
    rw [← partsBytes_encPartsOf st vl] at hlen ⊢
    rw [List.append_assoc] at hlen ⊢
    rw [parseGo_parts _ _ st acc (encPartsOf_ok st vl) hlen]
    rw [applyParts_encPartsOf st vl ht hd]
    have hvp : (valuesPart vl.values).length = 6 + 9 * vl.values.length := by
      simp [valuesPart, be16_len, tagsOf_len, cellsOf_len]
      omega
    have h9 : 9 * vl.values.length + 6 < 65536 := by
      simp only [List.length_append, hvp] at hlen
      omega
    have hL : (valuesPart vl.values ++ encAll (encState st vl) vls).length =
        ((valuesPart vl.values ++ encAll (encState st vl) vls).length - 1) + 1 := by
      simp only [List.length_append, hvp]
      omega
    rw [hL, parseGo_valuesPart_step _ vl.values _ _ _ _
      (parseValues_enc vl.values hvals h9) h9]
    rw [parseGo_fuel _ (encAll (encState st vl) vls).length _ _ _
      (by simp only [List.length_append, hvp]; omega) le_rfl]
    have hstate : ({ st with id := vl.id, time := vl.time, interval := vl.interval }
        : ValueList) = encState st vl := rfl
    rw [hstate]
    rw [ih (encState st vl) _ hvls
      (by simp only [List.length_append] at hlen; omega)]
    have hemit : { encState st vl with values := vl.values.map normalizeValue } =
        normalizeVL vl := rfl
    rw [hemit, List.append_assoc]
    rfl

theorem legal_noCounter (values : List Value) (h : values.all legalValue = true) :
    noCounter values = true := by
  unfold noCounter
  rw [List.all_eq_true] at h ⊢
  intro v hv
  have hlv := h v hv
  cases v with
  | gauge bits => rfl
  | derive n => rfl
  | counter n => simp [legalValue] at hlv

/-- Run a sequence of `WriteValueList` calls; `none` if any write fails. -/
def writeAll (b : Buffer) : List ValueList → Option Buffer
  | [] => some b
  | vl :: vls =>
    match WriteValueList b vl [] with
    | .ok b1 => writeAll b1 vls
    | _ => none

theorem writeAll_ok (vls : List ValueList) (b : Buffer)
    (hnc : vls.all (fun vl => noCounter vl.values) = true)
    (hfit : (b.buffer.length : Int) + ((encAll b.state vls).length : Int) ≤ b.size) :
    writeAll b vls = some { b with
      buffer := b.buffer ++ encAll b.state vls,
      state := encStateAll b.state vls } := by
  induction vls generalizing b with
  | nil =>
    simp [writeAll, encAll, encStateAll]
  | cons vl vls ih =>
    have hnc1 : noCounter vl.values = true := by
      rw [List.all_cons, Bool.and_eq_true] at hnc
      exact hnc.1
    have hncs : vls.all (fun vl => noCounter vl.values) = true := by
      rw [List.all_cons, Bool.and_eq_true] at hnc
      exact hnc.2
    have hlen1 : (encAll b.state (vl :: vls)).length =
        (encBytes b.state vl).length + (encAll (encState b.state vl) vls).length := by
      rw [show encAll b.state (vl :: vls) =
        encBytes b.state vl ++ encAll (encState b.state vl) vls from rfl]
      simp
    have hw := writeValueList_ok b vl hnc1 (by rw [hlen1] at hfit; push_cast at hfit ⊢; omega)
    unfold writeAll
    rw [WriteValueList_of_ok b vl [] _ hw]
    dsimp only
    rw [ih _ hncs (by
      simp only [List.length_append]
      rw [hlen1] at hfit
      push_cast at hfit ⊢
      omega)]
    rw [show encAll b.state (vl :: vls) =
      encBytes b.state vl ++ encAll (encState b.state vl) vls from rfl]
    rw [show encStateAll b.state (vl :: vls) =
      encStateAll (encState b.state vl) vls from rfl]
    rw [List.append_assoc]

/-- A legal-domain value list whose time has one stray nanosecond. -/
def vlC1 : ValueList :=
  { id := ⟨[104], [112], [], [116], []⟩, time := ⟨false, 1⟩,
    interval := 10000000000, values := [Value.derive 7] }

/-- **C1**, counterexample: a value list from the claim's legal domain (derive
value, non-empty host/plugin/type, positive interval, fits easily in one
datagram) whose time carries one stray nanosecond: the encoder stores it via
the truncating cdtime conversion and the parser reconstructs the time with the
nanosecond dropped, so the parsed sequence differs from the written one. -/
theorem claim_C1_counterexample :
    (writeAll NewBuffer [vlC1]).map (fun b => Parse b.buffer) =
      some (.res [{ vlC1 with time := ⟨false, 0⟩ }] none) ∧
    ({ vlC1 with time := (⟨false, 0⟩ : GoTime) } : ValueList) ≠ vlC1 := by
  constructor
  · decide
  · decide

/-- **C1** (amended): for every sequence of value lists from the legal domain
(gauge/derive values in range — Counter panics, see C7 — non-empty
host/plugin/type, positive interval, and times and intervals exactly
representable in cdtime) whose encoding fits in one datagram, writing the
sequence into a fresh plain buffer succeeds without flushing, and parsing the
accumulated bytes reconstructs exactly the same sequence in order, with NaN
gauge values coming back as the canonical on-wire NaN, regardless of how many
identifier, time or interval parts the state-compressing encoder elided. -/
theorem claim_C1_amended (vls : List ValueList) (hleg : vls.all legalVL = true)
    (hfit : (encAll zeroValueList vls).length ≤ 1452) :
    writeAll NewBuffer vls = some { NewBuffer with
      buffer := encAll zeroValueList vls,
      state := encStateAll zeroValueList vls } ∧
    Parse (encAll zeroValueList vls) = .res (vls.map normalizeVL) none := by
  constructor
  · have hnc : vls.all (fun vl => noCounter vl.values) = true := by
      rw [List.all_eq_true] at hleg ⊢
      intro vl hvl
      have h := hleg vl hvl
      simp only [legalVL, Bool.and_eq_true] at h
      exact legal_noCounter _ h.1.1.1.1.1.1
    have h := writeAll_ok vls NewBuffer hnc (by
      show ((List.length ([] : List Nat) : Nat) : Int) +
        ((encAll zeroValueList vls).length : Int) ≤ ((DefaultBufferSize : Nat) : Int)
      simp only [List.length_nil, DefaultBufferSize]
      push_cast
      omega)
    simpa [NewBuffer] using h
  · show parseGo (encAll zeroValueList vls).length (encAll zeroValueList vls)
      zeroValueList [] = _
    rw [parse_encAll vls zeroValueList [] hleg (by omega)]
    rfl

def vlC1a : ValueList :=
  { id := ⟨[104], [112], [], [116], []⟩, time := ⟨false, 100000000000⟩,
    interval := 10000000000,
    values := [Value.derive (-5), Value.gauge 0x7FF0000000000001] }

def vlC1b : ValueList :=
  { id := ⟨[104], [112], [], [116], []⟩, time := ⟨false, 101000000000⟩,
    interval := 10000000000, values := [Value.gauge 0x4059000000000000] }

/-- C1, witness for the amended theorem: two value lists sharing identifier
and interval (so the second write elides those parts), one NaN gauge (bit
pattern `0x7FF0000000000001`, reconstructed as the canonical NaN), a negative
derive, and whole-second times. -/
theorem claim_C1_witness :
    ([vlC1a, vlC1b].all legalVL = true) ∧
    ((encAll zeroValueList [vlC1a, vlC1b]).length ≤ 1452) ∧
    (writeAll NewBuffer [vlC1a, vlC1b] = some { NewBuffer with
      buffer := encAll zeroValueList [vlC1a, vlC1b],
      state := encStateAll zeroValueList [vlC1a, vlC1b] } ∧
    Parse (encAll zeroValueList [vlC1a, vlC1b]) =
      .res ([vlC1a, vlC1b].map normalizeVL) none) :=
  ⟨by decide, by decide,
    claim_C1_amended [vlC1a, vlC1b] (by decide) (by decide)⟩

/-! ## C8 (amended): last-wins over arbitrary datagrams -/

/-- A well-formed part of a datagram, values parts included; a `vals` part
carries the payload together with its parse result. -/
inductive DPart where
  | str (typ : Nat) (s : List Nat)
  | int (typ : Nat) (n : Nat)
  | vals (payload : List Nat) (vs : List Value)

/-- The on-wire bytes of a part list. -/
def dBytes : List DPart → List Nat
  | [] => []
  | .str t s :: ds => stringPart t s ++ dBytes ds
  | .int t n :: ds => intPart t n ++ dBytes ds
  | .vals p _ :: ds => be16 typeValues ++ be16 (4 + p.length) ++ p ++ dBytes ds

/-- The parser state after walking a part list (values parts leave it). -/
def dState (st : ValueList) : List DPart → ValueList
  | [] => st
  | .str t s :: ds => dState (setStringField st t s) ds
  | .int t n :: ds => dState (setIntField st t n) ds
  | .vals _ _ :: ds => dState st ds

/-- The value lists emitted while walking a part list. -/
def dEmits (st : ValueList) : List DPart → List ValueList
  | [] => []
  | .str t s :: ds => dEmits (setStringField st t s) ds
  | .int t n :: ds => dEmits (setIntField st t n) ds
  | .vals _ vs :: ds => { st with values := vs } :: dEmits st ds

/-- Well-formedness of one part: a recognized type tag, field values the wire
format can carry, and (for a values part) a payload its declared parse. -/
def dOk : DPart → Bool
  | .str t s => decide (t = typeHost ∨ t = typePlugin ∨ t = typePluginInstance ∨
      t = typeType ∨ t = typeTypeInstance) && decide (s.length + 5 < 65536)
  | .int t n => decide (t = typeInterval ∨ t = typeIntervalHR ∨ t = typeTime ∨
      t = typeTimeHR) && decide (n < 2 ^ 64)
  | .vals p vs => decide (parseValues p = .ok vs) && decide (1 ≤ p.length) &&
      decide (p.length + 4 < 65536)

/-- A part that leaves `state.Time` unchanged: anything but a Time/TimeHR
integer part. -/
def keepsTime : DPart → Bool
  | .int t _ => decide (t = typeInterval ∨ t = typeIntervalHR)
  | _ => true

theorem parseGo_dparts (ds : List DPart) (rest : List Nat) (st : ValueList)
    (acc : List ValueList) (hok : ds.all dOk = true) :
    parseGo (dBytes ds ++ rest).length (dBytes ds ++ rest) st acc =
      parseGo rest.length rest (dState st ds) (acc ++ dEmits st ds) := by
  induction ds generalizing st acc with
  | nil => simp [dBytes, dState, dEmits]
  | cons d ds ih =>
    have hokd : dOk d = true := by
      rw [List.all_cons, Bool.and_eq_true] at hok
      exact hok.1
    have hokds : ds.all dOk = true := by
      rw [List.all_cons, Bool.and_eq_true] at hok
      exact hok.2
    cases d with
    | str t s =>
      have hokd' : (t = typeHost ∨ t = typePlugin ∨ t = typePluginInstance ∨
          t = typeType ∨ t = typeTypeInstance) ∧ s.length + 5 < 65536 := by
        simpa [dOk] using hokd
      simp only [dBytes, dState, dEmits, List.append_assoc]
      have hL : (stringPart t s ++ (dBytes ds ++ rest)).length =
          (s.length + 4 + (dBytes ds ++ rest).length) + 1 := by
        simp only [List.length_append, stringPart_len]
        omega
      rw [hL, parseGo_string_step _ t s _ st acc hokd'.1 hokd'.2]
      rw [parseGo_fuel _ (dBytes ds ++ rest).length _ _ _ (by omega) le_rfl]
      exact ih _ _ hokds
    | int t n =>
      have hokd' : (t = typeInterval ∨ t = typeIntervalHR ∨ t = typeTime ∨
          t = typeTimeHR) ∧ n < 2 ^ 64 := by
        simpa [dOk] using hokd
      simp only [dBytes, dState, dEmits, List.append_assoc]
      have hL : (intPart t n ++ (dBytes ds ++ rest)).length =
          (11 + (dBytes ds ++ rest).length) + 1 := by
        simp only [List.length_append, intPart_len]
        omega
      rw [hL, parseGo_int_step _ t n _ st acc hokd'.1 hokd'.2]
      rw [parseGo_fuel _ (dBytes ds ++ rest).length _ _ _ (by omega) le_rfl]
      exact ih _ _ hokds
    | vals p vs =>
      have hokd' : (parseValues p = .ok vs ∧ 1 ≤ p.length) ∧ p.length + 4 < 65536 := by
        simpa [dOk] using hokd
      simp only [dBytes, dState, dEmits]
      rw [List.append_assoc]
      have hL : (be16 typeValues ++ be16 (4 + p.length) ++ p ++ (dBytes ds ++ rest)).length =
          (3 + p.length + (dBytes ds ++ rest).length) + 1 := by
        simp only [List.length_append, be16_len]
        omega
      rw [hL, parseGo_values_step _ p _ st acc vs hokd'.1.1 hokd'.2 hokd'.1.2]
      rw [parseGo_fuel _ (dBytes ds ++ rest).length _ _ _ (by omega) le_rfl]
      rw [ih _ _ hokds]
      rw [List.append_assoc, List.singleton_append]

theorem dState_append (st : ValueList) (a b : List DPart) :
    dState st (a ++ b) = dState (dState st a) b := by
  induction a generalizing st with
  | nil => simp [dState]
  | cons d ds ih =>
    cases d with
    | str t s => simp [dState, ih]
    | int t n => simp [dState, ih]
    | vals p vs => simp [dState, ih]

theorem setStringField_time (st : ValueList) (t : Nat) (s : List Nat) :
    (setStringField st t s).time = st.time := by
  unfold setStringField
  split
  · rfl
  split
  · rfl
  split
  · rfl
  split
  · rfl
  · rfl

theorem setIntField_time_keep (st : ValueList) (t n : Nat)
    (ht : t = typeInterval ∨ t = typeIntervalHR) :
    (setIntField st t n).time = st.time := by
  rcases ht with rfl | rfl
  · unfold setIntField
    rw [if_pos rfl]
  · unfold setIntField
    rw [if_neg (by decide), if_pos rfl]

theorem dState_time (ds : List DPart) (st : ValueList)
    (hno : ds.all keepsTime = true) :
    (dState st ds).time = st.time := by
  induction ds generalizing st with
  | nil => rfl
  | cons d ds ih =>
    have hd : keepsTime d = true := by
      rw [List.all_cons, Bool.and_eq_true] at hno
      exact hno.1
    have hds : ds.all keepsTime = true := by
      rw [List.all_cons, Bool.and_eq_true] at hno
      exact hno.2
    cases d with
    | str t s =>
      rw [show dState st (.str t s :: ds) = dState (setStringField st t s) ds from rfl]
      rw [ih _ hds, setStringField_time]
    | int t n =>
      have ht : t = typeInterval ∨ t = typeIntervalHR := by
        simpa [keepsTime] using hd
      rw [show dState st (.int t n :: ds) = dState (setIntField st t n) ds from rfl]
      rw [ih _ hds, setIntField_time_keep st t n ht]
    | vals p vs =>
      rw [show dState st (.vals p vs :: ds) = dState st ds from rfl]
      exact ih _ hds

theorem setIntField_time_last (st : ValueList) (t n : Nat)
    (ht : t = typeTime ∨ t = typeTimeHR) :
    (setIntField st t n).time =
      (if t = typeTime then (⟨false, uint64ToInt64 n * 1000000000⟩ : GoTime)
       else cdtimeToTime n) := by
  rcases ht with rfl | rfl
  · unfold setIntField
    rw [if_neg (by decide), if_neg (by decide), if_pos rfl, if_pos rfl]
  · unfold setIntField
    rw [if_neg (by decide), if_neg (by decide), if_neg (by decide), if_neg (by decide)]

/-- **C8** (amended): for every datagram in which a legacy Time part
(0x0001) and a TimeHR part (0x0008) both appear before the same Values part,
in either order (`horder`), with arbitrary well-formed parts around and
between them — identifier parts, interval parts, even other Values parts —
any further time parts between the two, no time part after the second
(`hno3`), an arbitrary accepted values payload, and arbitrary trailing bytes:
the value list emitted for that Values part carries the time decoded from
whichever time part appeared LAST (legacy `time.Unix(v, 0)` for Time, the
cdtime decoding for TimeHR), not necessarily the TimeHR part. -/
theorem claim_C8_amended (ds1 ds2 ds3 : List DPart) (t1 t2 n1 n2 : Nat)
    (payload : List Nat) (vs : List Value) (rest : List Nat)
    (st : ValueList) (acc : List ValueList)
    (h1 : ds1.all dOk = true) (h2 : ds2.all dOk = true) (h3 : ds3.all dOk = true)
    (hno3 : ds3.all keepsTime = true)
    (horder : (t1 = typeTime ∧ t2 = typeTimeHR) ∨ (t1 = typeTimeHR ∧ t2 = typeTime))
    (hn1 : n1 < 2 ^ 64) (hn2 : n2 < 2 ^ 64)
    (hp : parseValues payload = .ok vs) (hp1 : 1 ≤ payload.length)
    (hp4 : payload.length + 4 < 65536) :
    (parseGo
        (dBytes (ds1 ++ [DPart.int t1 n1] ++ ds2 ++ [DPart.int t2 n2] ++ ds3) ++
          (be16 typeValues ++ be16 (4 + payload.length) ++ payload ++ rest)).length
        (dBytes (ds1 ++ [DPart.int t1 n1] ++ ds2 ++ [DPart.int t2 n2] ++ ds3) ++
          (be16 typeValues ++ be16 (4 + payload.length) ++ payload ++ rest)) st acc =
      parseGo rest.length rest
        (dState st (ds1 ++ [DPart.int t1 n1] ++ ds2 ++ [DPart.int t2 n2] ++ ds3))
        (acc ++ dEmits st (ds1 ++ [DPart.int t1 n1] ++ ds2 ++ [DPart.int t2 n2] ++ ds3) ++
          [{ dState st (ds1 ++ [DPart.int t1 n1] ++ ds2 ++ [DPart.int t2 n2] ++ ds3) with
              values := vs }])) ∧
    (dState st (ds1 ++ [DPart.int t1 n1] ++ ds2 ++ [DPart.int t2 n2] ++ ds3)).time =
      (if t2 = typeTime then (⟨false, uint64ToInt64 n2 * 1000000000⟩ : GoTime)
       else cdtimeToTime n2) := by
  have ht1 : t1 = typeInterval ∨ t1 = typeIntervalHR ∨ t1 = typeTime ∨
      t1 = typeTimeHR := by
    rcases horder with ⟨rfl, _⟩ | ⟨rfl, _⟩
    · right; right; left; rfl
    · right; right; right; rfl
  have ht2 : t2 = typeInterval ∨ t2 = typeIntervalHR ∨ t2 = typeTime ∨
      t2 = typeTimeHR := by
    rcases horder with ⟨_, rfl⟩ | ⟨_, rfl⟩
    · right; right; right; rfl
    · right; right; left; rfl
  have ht2' : t2 = typeTime ∨ t2 = typeTimeHR := by
    rcases horder with ⟨_, rfl⟩ | ⟨_, rfl⟩
    · right; rfl
    · left; rfl
  have hokall : (ds1 ++ [DPart.int t1 n1] ++ ds2 ++ [DPart.int t2 n2] ++ ds3).all dOk = true := by
    simp only [List.all_append, Bool.and_eq_true]
    refine ⟨⟨⟨⟨h1, ?_⟩, h2⟩, ?_⟩, h3⟩
    · simp only [List.all_cons, List.all_nil, Bool.and_true, dOk,
        Bool.and_eq_true, decide_eq_true_eq]
      exact ⟨ht1, hn1⟩
    · simp only [List.all_cons, List.all_nil, Bool.and_true, dOk,
        Bool.and_eq_true, decide_eq_true_eq]
      exact ⟨ht2, hn2⟩
  constructor
  · rw [parseGo_dparts _ _ st acc hokall]
    have hL : (be16 typeValues ++ be16 (4 + payload.length) ++ payload ++ rest).length =
        (3 + payload.length + rest.length) + 1 := by
      simp only [List.length_append, be16_len]
      omega
    rw [hL, parseGo_values_step _ payload rest _ _ vs hp hp4 hp1]
    rw [parseGo_fuel _ rest.length _ _ _ (by omega) le_rfl]
  · rw [dState_append st (ds1 ++ [DPart.int t1 n1] ++ ds2 ++ [DPart.int t2 n2]) ds3]
    rw [dState_time ds3 _ hno3]
    rw [dState_append st (ds1 ++ [DPart.int t1 n1] ++ ds2) [DPart.int t2 n2]]
    rw [show dState (dState st (ds1 ++ [DPart.int t1 n1] ++ ds2)) [DPart.int t2 n2] =
      setIntField (dState st (ds1 ++ [DPart.int t1 n1] ++ ds2)) t2 n2 from rfl]
    exact setIntField_time_last _ t2 n2 ht2'

def c8pre : List DPart := [DPart.str typeHost [104]]

def c8mid : List DPart :=
  [DPart.vals (be16 1 ++ tagsOf [Value.derive 3] ++ cellsOf [Value.derive 3])
    [Value.derive 3]]

def c8post : List DPart := [DPart.int typeIntervalHR 1073741824]

def c8payload : List Nat := be16 1 ++ tagsOf [Value.derive 0] ++ cellsOf [Value.derive 0]

/-- C8, witness for the amended theorem: host part, TimeHR (one cdtime
second), an intervening Values part, legacy Time (five seconds), an IntervalHR
part, then the Values part in question — the emission carries the legacy five
seconds because the legacy part came last. -/
theorem claim_C8_witness :
    (c8pre.all dOk = true) ∧ (c8mid.all dOk = true) ∧ (c8post.all dOk = true) ∧
    (c8post.all keepsTime = true) ∧
    ((typeTimeHR = typeTime ∧ typeTime = typeTimeHR) ∨
      (typeTimeHR = typeTimeHR ∧ typeTime = typeTime)) ∧
    ((2 ^ 30 : Nat) < 2 ^ 64) ∧ ((5 : Nat) < 2 ^ 64) ∧
    (parseValues c8payload = .ok [Value.derive 0]) ∧
    (1 ≤ c8payload.length) ∧ (c8payload.length + 4 < 65536) ∧
    ((parseGo
        (dBytes (c8pre ++ [DPart.int typeTimeHR (2 ^ 30)] ++ c8mid ++
            [DPart.int typeTime 5] ++ c8post) ++
          (be16 typeValues ++ be16 (4 + c8payload.length) ++ c8payload ++ [])).length
        (dBytes (c8pre ++ [DPart.int typeTimeHR (2 ^ 30)] ++ c8mid ++
            [DPart.int typeTime 5] ++ c8post) ++
          (be16 typeValues ++ be16 (4 + c8payload.length) ++ c8payload ++ []))
        zeroValueList [] =
      parseGo (List.length ([] : List Nat)) []
        (dState zeroValueList (c8pre ++ [DPart.int typeTimeHR (2 ^ 30)] ++ c8mid ++
          [DPart.int typeTime 5] ++ c8post))
        ([] ++ dEmits zeroValueList (c8pre ++ [DPart.int typeTimeHR (2 ^ 30)] ++ c8mid ++
            [DPart.int typeTime 5] ++ c8post) ++
          [{ dState zeroValueList (c8pre ++ [DPart.int typeTimeHR (2 ^ 30)] ++ c8mid ++
              [DPart.int typeTime 5] ++ c8post) with values := [Value.derive 0] }])) ∧
    (dState zeroValueList (c8pre ++ [DPart.int typeTimeHR (2 ^ 30)] ++ c8mid ++
        [DPart.int typeTime 5] ++ c8post)).time =
      (if typeTime = typeTime then (⟨false, uint64ToInt64 5 * 1000000000⟩ : GoTime)
       else cdtimeToTime 5)) :=
  ⟨by decide, by decide, by decide, by decide, by decide, by decide, by decide,
   by decide, by decide, by decide,
   claim_C8_amended c8pre c8mid c8post typeTimeHR typeTime (2 ^ 30) 5 c8payload
     [Value.derive 0] [] zeroValueList [] (by decide) (by decide) (by decide)
     (by decide) (by decide) (by decide) (by decide) (by decide) (by decide)
     (by decide)⟩
